import Mathlib

/-!
Verification development for the KEP document-to-structured-data pipeline.

Shallow embedding of the core components:
  * `utils/utility.py` — the robust JSON extractor (`extract_json_from_response`)
    and its repair helpers;
  * `prompter/prompter.py` + `prompter/strategies/{zero_shot,few_shot}.py` —
    prompt assembly;
  * `extractor/classifier.py` — the classification stage (`Classifier.predict`);
  * `extractor/structurer.py` — the extraction stage (`Structurer.predict`).

Python values flowing through these functions are JSON-shaped, so they are
modelled by the inductive `PyVal` below.  Machine floats are modelled by `Rat`
(wall-clock durations are opaque oracle inputs, so only their arithmetic
matters here).  JSON numbers are modelled as integers — the modelled fragment
of `json.loads` covers the number forms the claims exercise; fractional and
exponent forms are out of scope and parse to failure, which only turns a
successful parse into a skipped candidate block.
-/

set_option maxRecDepth 10000

namespace Kep

/-- JSON-shaped Python value: the payloads handled by `utility.py`,
the prompter and the two pipeline stages. -/
inductive PyVal where
  | null
  | bool (b : Bool)
  | num (n : Int)
  | str (s : String)
  | arr (items : List PyVal)
  | obj (pairs : List (String × PyVal))
  deriving Repr

namespace PyVal

/-- Structural decidable equality for `PyVal` (nested inductive, so spelled out). -/
def beq : PyVal → PyVal → Bool
  | null, null => true
  | bool a, bool b => a = b
  | num a, num b => a = b
  | str a, str b => a = b
  | arr a, arr b => beqList a b
  | obj a, obj b => beqPairs a b
  | _, _ => false
where
  beqList : List PyVal → List PyVal → Bool
    | [], [] => true
    | x :: xs, y :: ys => beq x y && beqList xs ys
    | _, _ => false
  beqPairs : List (String × PyVal) → List (String × PyVal) → Bool
    | [], [] => true
    | (k, v) :: xs, (l, w) :: ys => k = l && beq v w && beqPairs xs ys
    | _, _ => false

theorem beqList_refl_of (l : List PyVal) (ih : ∀ x ∈ l, beq x x = true) :
    beq.beqList l l = true := by
  induction l with
  | nil => rfl
  | cons x xs ihl =>
    simp only [beq.beqList, Bool.and_eq_true]
    exact ⟨ih x (by simp), ihl (fun y hy => ih y (by simp [hy]))⟩

theorem beqPairs_refl_of (l : List (String × PyVal))
    (ih : ∀ p ∈ l, beq p.2 p.2 = true) : beq.beqPairs l l = true := by
  induction l with
  | nil => rfl
  | cons p ps ihl =>
    obtain ⟨k, v⟩ := p
    simp only [beq.beqPairs, Bool.and_eq_true]
    exact ⟨⟨by simp, ih ⟨k, v⟩ (by simp)⟩, ihl (fun q hq => ih q (by simp [hq]))⟩

theorem beq_refl : (v : PyVal) → beq v v = true
  | null => rfl
  | bool _ => by simp [beq]
  | num _ => by simp [beq]
  | str _ => by simp [beq]
  | arr items => by
    have ih : ∀ x ∈ items, beq x x = true := fun x hx => beq_refl x
    simpa only [beq] using beqList_refl_of items ih
  | obj pairs => by
    have ih : ∀ p ∈ pairs, beq p.2 p.2 = true := fun p hp => beq_refl p.2
    simpa only [beq] using beqPairs_refl_of pairs ih
termination_by v => sizeOf v
decreasing_by
  · have := List.sizeOf_lt_of_mem hx
    simp only [arr.sizeOf_spec]
    omega
  · have h1 := List.sizeOf_lt_of_mem hp
    have h2 : sizeOf p.2 < sizeOf p := by
      obtain ⟨a, b⟩ := p; simp
    simp only [obj.sizeOf_spec]
    omega

theorem beqList_eq_of (xs : List PyVal)
    (ih : ∀ x ∈ xs, ∀ y, beq x y = true → x = y) :
    ∀ ys, beq.beqList xs ys = true → xs = ys := by
  induction xs with
  | nil => intro ys h; cases ys with
    | nil => rfl
    | cons y ys => simp [beq.beqList] at h
  | cons x xs ihl =>
    intro ys h
    cases ys with
    | nil => simp [beq.beqList] at h
    | cons y ys =>
      simp only [beq.beqList, Bool.and_eq_true] at h
      rw [ih x (by simp) y h.1,
          ihl (fun z hz w hw => ih z (by simp [hz]) w hw) ys h.2]

theorem beqPairs_eq_of (xs : List (String × PyVal))
    (ih : ∀ p ∈ xs, ∀ w, beq p.2 w = true → p.2 = w) :
    ∀ ys, beq.beqPairs xs ys = true → xs = ys := by
  induction xs with
  | nil => intro ys h; cases ys with
    | nil => rfl
    | cons y ys => simp [beq.beqPairs] at h
  | cons p ps ihl =>
    intro ys h
    cases ys with
    | nil => simp [beq.beqPairs] at h
    | cons q qs =>
      obtain ⟨k, v⟩ := p
      obtain ⟨l, w⟩ := q
      simp only [beq.beqPairs, Bool.and_eq_true, decide_eq_true_eq] at h
      obtain ⟨⟨hk, hv⟩, ht⟩ := h
      have hvw : v = w := ih (k, v) (by simp) w hv
      rw [hk, hvw, ihl (fun r hr u hu => ih r (by simp [hr]) u hu) qs ht]

theorem eq_of_beq : (a b : PyVal) → beq a b = true → a = b
  | null, null, _ => rfl
  | null, bool _, h => by simp [beq] at h
  | null, num _, h => by simp [beq] at h
  | null, str _, h => by simp [beq] at h
  | null, arr _, h => by simp [beq] at h
  | null, obj _, h => by simp [beq] at h
  | bool _, null, h => by simp [beq] at h
  | bool _, bool _, h => by simp [beq] at h; simp [h]
  | bool _, num _, h => by simp [beq] at h
  | bool _, str _, h => by simp [beq] at h
  | bool _, arr _, h => by simp [beq] at h
  | bool _, obj _, h => by simp [beq] at h
  | num _, null, h => by simp [beq] at h
  | num _, bool _, h => by simp [beq] at h
  | num _, num _, h => by simp [beq] at h; simp [h]
  | num _, str _, h => by simp [beq] at h
  | num _, arr _, h => by simp [beq] at h
  | num _, obj _, h => by simp [beq] at h
  | str _, null, h => by simp [beq] at h
  | str _, bool _, h => by simp [beq] at h
  | str _, num _, h => by simp [beq] at h
  | str _, str _, h => by simp [beq] at h; simp [h]
  | str _, arr _, h => by simp [beq] at h
  | str _, obj _, h => by simp [beq] at h
  | arr _, null, h => by simp [beq] at h
  | arr _, bool _, h => by simp [beq] at h
  | arr _, num _, h => by simp [beq] at h
  | arr _, str _, h => by simp [beq] at h
  | arr xs, arr ys, h => by
    have ih : ∀ x ∈ xs, ∀ y, beq x y = true → x = y :=
      fun x hx y hxy => eq_of_beq x y hxy
    simp only [beq] at h
    rw [beqList_eq_of xs ih ys h]
  | arr _, obj _, h => by simp [beq] at h
  | obj _, null, h => by simp [beq] at h
  | obj _, bool _, h => by simp [beq] at h
  | obj _, num _, h => by simp [beq] at h
  | obj _, str _, h => by simp [beq] at h
  | obj _, arr _, h => by simp [beq] at h
  | obj xs, obj ys, h => by
    have ih : ∀ p ∈ xs, ∀ w, beq p.2 w = true → p.2 = w :=
      fun p hp w hw => eq_of_beq p.2 w hw
    simp only [beq] at h
    rw [beqPairs_eq_of xs ih ys h]
termination_by a _ _ => sizeOf a
decreasing_by
  · have := List.sizeOf_lt_of_mem hx
    simp only [arr.sizeOf_spec]
    omega
  · have h1 := List.sizeOf_lt_of_mem hp
    have h2 : sizeOf p.2 < sizeOf p := by
      obtain ⟨a, b⟩ := p; simp
    simp only [obj.sizeOf_spec]
    omega

instance : DecidableEq PyVal := fun a b =>
  if h : beq a b = true then .isTrue (eq_of_beq a b h)
  else .isFalse (fun hab => h (hab ▸ beq_refl a))

/-- Python truthiness of a JSON-shaped value (`bool(v)`): `None`, `False`, `0`,
`""`, `[]`, `{}` are falsy, everything else truthy. -/
def truthy : PyVal → Bool
  | null => false
  | bool b => b
  | num n => n ≠ 0
  | str s => s ≠ ""
  | arr items => items ≠ []
  | obj pairs => pairs ≠ []

/-- `d.get(k)` on a Python dict represented as an ordered pair list. -/
def dictGet (pairs : List (String × PyVal)) (k : String) : Option PyVal :=
  match pairs.find? (fun p => p.1 = k) with
  | some p => some p.2
  | none => none

/-- Is this value a JSON object (Python `dict`)? -/
def isObj : PyVal → Bool
  | obj _ => true
  | _ => false

/-- Is this value a JSON array (Python `list`)? -/
def isArr : PyVal → Bool
  | arr _ => true
  | _ => false

end PyVal

/-! ## Character classes used by the regexes in `utils/utility.py` -/

/-- Characters matched by the regex class `[\n\r\t]`. -/
def isNRT (c : Char) : Bool := c = '\n' ∨ c = '\r' ∨ c = '\t'

/-- ASCII whitespace matched by the regex class `\s` (and by JSON/`str.strip`).
`\x0b` is vertical tab, `\x0c` form feed. -/
def isPyWs (c : Char) : Bool :=
  c = ' ' ∨ c = '\t' ∨ c = '\n' ∨ c = '\r' ∨ c = '\x0b' ∨ c = '\x0c'

/-- Whitespace recognised by the JSON grammar (`json.loads`). -/
def isJsonWs (c : Char) : Bool :=
  c = ' ' ∨ c = '\t' ∨ c = '\n' ∨ c = '\r'

/-! ## Repair helpers from `utils/utility.py` -/

/-- `re.sub(pat-class+, rep, s)`: replace every maximal run of characters
satisfying `p` by the single character `rep`.  The boolean flag records
whether the previous character belonged to a run. -/
def collapseRuns (p : Char → Bool) (rep : Char) : List Char → Bool → List Char
  | [], _ => []
  | c :: cs, inRun =>
    if p c then
      if inRun then collapseRuns p rep cs true
      else rep :: collapseRuns p rep cs true
    else c :: collapseRuns p rep cs false

/-- `re.sub(r'[\n\r\t]+', ' ', s)`. -/
def collapseNRT (s : List Char) : List Char := collapseRuns isNRT ' ' s false

/-- `re.sub(r'\s+', ' ', s)`. -/
def collapseWs (s : List Char) : List Char := collapseRuns isPyWs ' ' s false

/-- `s.replace('“', '"').replace('”', '"')` — normalise smart quotes. -/
def smartQuotes (s : List Char) : List Char :=
  s.map (fun c => if c = '“' ∨ c = '”' then '"' else c)

/-- `clean_trailing_commas`: `re.sub(r',\s*([\}\]])', r'\1', s)`.
The first argument holds, reversed, a pending comma-plus-whitespace run whose
fate depends on the next non-whitespace character. -/
def cleanTrailingAux : List Char → List Char → List Char
  | pend, [] => pend.reverse
  | pend, c :: cs =>
    if pend = [] then
      if c = ',' then cleanTrailingAux [c] cs
      else c :: cleanTrailingAux [] cs
    else
      if isPyWs c then cleanTrailingAux (c :: pend) cs
      else if c = '}' ∨ c = ']' then c :: cleanTrailingAux [] cs
      else if c = ',' then pend.reverse ++ cleanTrailingAux [c] cs
      else pend.reverse ++ (c :: cleanTrailingAux [] cs)

def clean_trailing_commas (s : List Char) : List Char := cleanTrailingAux [] s

/-- Count occurrences of a character (`str.count`). -/
def countChar (c : Char) (s : List Char) : Nat := s.countP (fun x => x = c)

/-- `fix_missing_braces`: append missing `'\x7d'` characters when the count of
`'\x7b'` exceeds the count of `'\x7d'`. -/
def fix_missing_braces (s : List Char) : List Char :=
  let opens := countChar '{' s
  let closes := countChar '}' s
  if opens > closes then s ++ List.replicate (opens - closes) '}' else s

/-- Worker for `splitlinesNL`: accumulate the current line (reversed). -/
def splitlinesAux (acc : List Char) : List Char → List (List Char)
  | [] => [acc.reverse]
  | c :: cs =>
    if c = '\n' then
      acc.reverse :: (match cs with | [] => [] | _ :: _ => splitlinesAux [] cs)
    else splitlinesAux (c :: acc) cs

/-- `str.splitlines()` restricted to `'\n'` terminators (the inputs this
development feeds it contain no other line terminators: upstream cleaning has
already collapsed `\r`).  `""` gives `[]`, a trailing newline adds no empty
final line. -/
def splitlinesNL : List Char → List (List Char)
  | [] => []
  | s => splitlinesAux [] s

/-- `str.lstrip()` / `str.rstrip()` / `str.strip()` on char lists. -/
def lstripChars (s : List Char) : List Char := s.dropWhile isPyWs

def rstripChars (s : List Char) : List Char := (s.reverse.dropWhile isPyWs).reverse

def stripChars (s : List Char) : List Char := rstripChars (lstripChars s)

/-- One step of `fix_missing_commas_between_keys`' loop: given the reversed
list of already-processed lines and the current line (with its index), decide
whether to patch the previous processed line with a trailing comma. -/
def fixCommasStep (prevAll : List (List Char)) (acc : List (List Char))
    (i : Nat) (line : List Char) : List (List Char) :=
  if i > 0 ∧ (lstripChars line).head? = some '"' ∧
      (prevAll.take i).any (fun l => stripChars l ≠ []) then
    match acc with
    | [] => line :: acc
    | prev :: rest =>
      if (rstripChars prev).getLast? = some ',' then line :: acc
      else line :: ((rstripChars prev ++ [',']) :: rest)
  else line :: acc

/-- `fix_missing_commas_between_keys`: if a line starts (after lstrip) with a
double quote and some earlier line is non-blank, append a comma to the
previously emitted line unless it already ends with one. -/
def fix_missing_commas_between_keys (s : List Char) : List Char :=
  let lines := splitlinesNL s
  let fixedRev := (List.range lines.length).foldl
    (fun acc i => fixCommasStep lines acc i (lines.getD i [])) []
  List.intercalate ['\n'] fixedRev.reverse

/-! ## `json.loads` (the fragment exercised by the repository)

Strings support the one-character escapes; `\uXXXX` escapes and
fraction/exponent number forms are outside the modelled fragment and parse to
failure (in the extractor a failed parse only drops that candidate block). -/

def skipWs (s : List Char) : List Char := s.dropWhile isJsonWs

/-- Decode one JSON string escape character (after the backslash). -/
def unescapeChar (c : Char) : Option Char :=
  if c = '"' then some '"'
  else if c = '\\' then some '\\'
  else if c = '/' then some '/'
  else if c = 'n' then some '\n'
  else if c = 't' then some '\t'
  else if c = 'r' then some '\r'
  else if c = 'b' then some '\x08'
  else if c = 'f' then some '\x0c'
  else none

/-- Parse the body of a JSON string literal (the opening quote already
consumed); returns the decoded content and the input after the closing
quote. -/
def parseStrBody : List Char → Option (List Char × List Char)
  | [] => none
  | c :: cs =>
    if c = '"' then some ([], cs)
    else if c = '\\' then
      match cs with
      | [] => none
      | e :: cs2 =>
        match unescapeChar e with
        | some d => (parseStrBody cs2).map (fun p => (d :: p.1, p.2))
        | none => none
    else (parseStrBody cs).map (fun p => (c :: p.1, p.2))

/-- Consume an expected literal tail (e.g. `rue` after `t`). -/
def litTail (lit : List Char) (s : List Char) : Option (List Char) :=
  if lit.isPrefixOf s then some (s.drop lit.length) else none

/-- Parse a JSON integer (optional minus, digits, no leading zeros). -/
def parseNum (s : List Char) : Option (Int × List Char) :=
  let (neg, s1) := match s with | '-' :: t => (true, t) | _ => (false, s)
  let digs := s1.takeWhile Char.isDigit
  let rest := s1.dropWhile Char.isDigit
  if digs = [] then none
  else if digs.length > 1 ∧ digs.head? = some '0' then none
  else
    let n : Nat := digs.foldl (fun a c => a * 10 + (c.toNat - 48)) 0
    some (if neg then -(n : Int) else (n : Int), rest)

/-- `d[key] = value` during object decoding: CPython keeps the first
occurrence's position and the last occurrence's value. -/
def insertPair (pairs : List (String × PyVal)) (k : String) (v : PyVal) :
    List (String × PyVal) :=
  if pairs.any (fun p => p.1 = k) then
    pairs.map (fun p => if p.1 = k then (k, v) else p)
  else pairs ++ [(k, v)]

mutual

/-- Recursive-descent JSON value parser; `fuel` bounds the recursion depth
(`pyJsonLoads` supplies `length + 1`, always sufficient for valid input). -/
def parseValue : Nat → List Char → Option (PyVal × List Char)
  | 0, _ => none
  | fuel + 1, s =>
    match skipWs s with
    | [] => none
    | '{' :: rest =>
      match skipWs rest with
      | '}' :: rest2 => some (.obj [], rest2)
      | _ => (parseMembers fuel (skipWs rest) []).map (fun p => (.obj p.1, p.2))
    | '[' :: rest =>
      match skipWs rest with
      | ']' :: rest2 => some (.arr [], rest2)
      | _ => (parseElems fuel (skipWs rest) []).map (fun p => (.arr p.1.reverse, p.2))
    | '"' :: rest => (parseStrBody rest).map (fun p => (.str (String.mk p.1), p.2))
    | 't' :: rest => (litTail "rue".data rest).map (fun r => (.bool true, r))
    | 'f' :: rest => (litTail "alse".data rest).map (fun r => (.bool false, r))
    | 'n' :: rest => (litTail "ull".data rest).map (fun r => (.null, r))
    | s2 => (parseNum s2).map (fun p => (.num p.1, p.2))

/-- Parse `"key": value (',' ... | '}')` members of an object body. -/
def parseMembers : Nat → List Char → List (String × PyVal) →
    Option (List (String × PyVal) × List Char)
  | 0, _, _ => none
  | fuel + 1, s, acc =>
    match s with
    | '"' :: rest =>
      match parseStrBody rest with
      | none => none
      | some (kcs, r1) =>
        match skipWs r1 with
        | ':' :: r2 =>
          match parseValue fuel r2 with
          | none => none
          | some (v, r3) =>
            let acc2 := insertPair acc (String.mk kcs) v
            match skipWs r3 with
            | ',' :: r4 => parseMembers fuel (skipWs r4) acc2
            | '}' :: r4 => some (acc2, r4)
            | _ => none
        | _ => none
    | _ => none

/-- Parse `value (',' ... | ']')` elements of an array body (accumulator
reversed). -/
def parseElems : Nat → List Char → List PyVal → Option (List PyVal × List Char)
  | 0, _, _ => none
  | fuel + 1, s, acc =>
    match parseValue fuel s with
    | none => none
    | some (v, r1) =>
      match skipWs r1 with
      | ',' :: r2 => parseElems fuel r2 (v :: acc)
      | ']' :: r2 => some (v :: acc, r2)
      | _ => none

end

/-- `json.loads`: parse one JSON document, requiring the whole input to be
consumed (up to trailing whitespace). -/
def pyJsonLoads (s : List Char) : Option PyVal :=
  match parseValue (s.length + 1) s with
  | some (v, rest) => if skipWs rest = [] then some v else none
  | none => none

/-! ## `json.dumps` -/

/-- Hex digit for escape rendering. -/
def hexDigit (n : Nat) : Char :=
  if n < 10 then Char.ofNat (48 + n) else Char.ofNat (87 + n)

/-- Escape one character of a JSON string for `json.dumps`.  With
`ensureAscii` (Python's default) non-ASCII characters also become `\uXXXX`
(code points above `0xFFFF` would need surrogate pairs; the repository's
schemas and the claims stay below that). -/
def dumpEscapeChar (ensureAscii : Bool) (c : Char) : List Char :=
  if c = '"' then ['\\', '"']
  else if c = '\\' then ['\\', '\\']
  else if c = '\n' then ['\\', 'n']
  else if c = '\t' then ['\\', 't']
  else if c = '\r' then ['\\', 'r']
  else if c = '\x08' then ['\\', 'b']
  else if c = '\x0c' then ['\\', 'f']
  else if c.toNat < 32 ∨ (ensureAscii ∧ c.toNat > 126) then
    let n := c.toNat
    ['\\', 'u', hexDigit (n / 4096 % 16), hexDigit (n / 256 % 16),
     hexDigit (n / 16 % 16), hexDigit (n % 16)]
  else [c]

/-- Render a string literal for `json.dumps`. -/
def dumpString (ensureAscii : Bool) (s : String) : List Char :=
  '"' :: (s.data.map (dumpEscapeChar ensureAscii)).flatten ++ ['"']

mutual

/-- `json.dumps(v)` with default (compact) separators `', '` and `': '`. -/
def dumpsCompact (ensureAscii : Bool) : PyVal → List Char
  | .null => "null".data
  | .bool true => "true".data
  | .bool false => "false".data
  | .num n => (toString n).data
  | .str s => dumpString ensureAscii s
  | .arr items => '[' :: List.intercalate [',', ' '] (dumpsCompactList ensureAscii items) ++ [']']
  | .obj pairs => '{' :: List.intercalate [',', ' '] (dumpsCompactPairs ensureAscii pairs) ++ ['}']

def dumpsCompactList (ensureAscii : Bool) : List PyVal → List (List Char)
  | [] => []
  | v :: vs => dumpsCompact ensureAscii v :: dumpsCompactList ensureAscii vs

def dumpsCompactPairs (ensureAscii : Bool) : List (String × PyVal) → List (List Char)
  | [] => []
  | (k, v) :: ps =>
    (dumpString ensureAscii k ++ ':' :: ' ' :: dumpsCompact ensureAscii v) ::
      dumpsCompactPairs ensureAscii ps

end

mutual

/-- `json.dumps(v, indent=2)`: `level` is the current nesting depth. -/
def dumpsIndent (ensureAscii : Bool) (level : Nat) : PyVal → List Char
  | .null => "null".data
  | .bool true => "true".data
  | .bool false => "false".data
  | .num n => (toString n).data
  | .str s => dumpString ensureAscii s
  | .arr [] => ['[', ']']
  | .arr (v :: vs) =>
    let inner := List.replicate (2 * (level + 1)) ' '
    '[' :: '\n' ::
      List.intercalate (',' :: '\n' :: [])
        (dumpsIndentList ensureAscii (level + 1) (v :: vs) |>.map (fun l => inner ++ l)) ++
      '\n' :: List.replicate (2 * level) ' ' ++ [']']
  | .obj [] => ['{', '}']
  | .obj (p :: ps) =>
    let inner := List.replicate (2 * (level + 1)) ' '
    '{' :: '\n' ::
      List.intercalate (',' :: '\n' :: [])
        (dumpsIndentPairs ensureAscii (level + 1) (p :: ps) |>.map (fun l => inner ++ l)) ++
      '\n' :: List.replicate (2 * level) ' ' ++ ['}']

def dumpsIndentList (ensureAscii : Bool) (level : Nat) : List PyVal → List (List Char)
  | [] => []
  | v :: vs => dumpsIndent ensureAscii level v :: dumpsIndentList ensureAscii level vs

def dumpsIndentPairs (ensureAscii : Bool) (level : Nat) :
    List (String × PyVal) → List (List Char)
  | [] => []
  | (k, v) :: ps =>
    (dumpString ensureAscii k ++ ':' :: ' ' :: dumpsIndent ensureAscii level v) ::
      dumpsIndentPairs ensureAscii level ps

end

/-- `json.dumps(v, indent=2)` as a string. -/
def pyJsonDumpsIndent2 (ensureAscii : Bool) (v : PyVal) : String :=
  String.mk (dumpsIndent ensureAscii 0 v)

/-- `json.dumps(v)` (compact) as a string. -/
def pyJsonDumps (v : PyVal) : String := String.mk (dumpsCompact true v)

/-! ## `extract_json_from_response`

Tier 1 uses `re.findall(r"```(?:json)?\s*(\{.*?\})\s*```", text, re.DOTALL)`.
The deterministic matcher below is equivalent to the backtracking regex:
after ` ``` ` the optional `json` is taken exactly when present (not taking it
can only succeed if the next character is whitespace or `{`, which `json`'s
`j` is not), `\s*` runs are maximal (whitespace never matches the required
next literal), and the lazy `.*?` stops at the first `}` whose tail
matches. -/

/-- Match `\s*```` ``` ```` after the closing brace; returns the input after
the closing fence. -/
def fenceTail (s : List Char) : Option (List Char) :=
  litTail ['`', '`', '`'] (s.dropWhile isPyWs)

/-- Lazy search for the closing `}` of the fenced capture: smallest body such
that `body ++ '\x7d' ++ \s* ++ ( ``` )` prefixes the input.  Returns the body
(without the brace) and the input after the closing fence. -/
def findFencedClose : List Char → Option (List Char × List Char)
  | [] => none
  | c :: cs =>
    if c = '}' then
      match fenceTail cs with
      | some rest => some ([], rest)
      | none => (findFencedClose cs).map (fun p => (c :: p.1, p.2))
    else (findFencedClose cs).map (fun p => (c :: p.1, p.2))

/-- Try to match the fenced-block regex anchored at this position; returns
(capture group, rest after the whole match). -/
def fencedMatchAt (s : List Char) : Option (List Char × List Char) :=
  match litTail ['`', '`', '`'] s with
  | none => none
  | some r1 =>
    match (if ['j', 's', 'o', 'n'].isPrefixOf r1 then r1.drop 4 else r1).dropWhile isPyWs with
    | '{' :: r4 =>
      match findFencedClose r4 with
      | some (body, rest) => some ('{' :: body ++ ['}'], rest)
      | none => none
    | _ => none

/-- `re.findall` scan: leftmost non-overlapping matches, resuming after each
match end; `fuel` bounds the scan (callers pass the input length). -/
def fencedFindAux : Nat → List Char → List (List Char)
  | 0, _ => []
  | fuel + 1, s =>
    match fencedMatchAt s with
    | some (cap, rest) => cap :: fencedFindAux fuel rest
    | none =>
      match s with
      | [] => []
      | _ :: t => fencedFindAux fuel t

/-- All capture groups of the markdown-fence regex over the text. -/
def fencedMatches (s : List Char) : List (List Char) := fencedFindAux s.length s

/-- The brace-counting scan of tier 2: `count` is the running `{`/`}` depth
(an `Int`: the source lets it go negative), `cur` the candidate started at the
last depth-0 `{` (reversed).  Emits the span whenever the depth returns to
zero while a candidate is open. -/
def braceScanAux : List Char → Int → Option (List Char) → List (List Char)
  | [], _, _ => []
  | c :: cs, count, cur =>
    if c = '{' then
      if count = 0 then braceScanAux cs (count + 1) (some [c])
      else braceScanAux cs (count + 1) (cur.map (fun l => c :: l))
    else if c = '}' then
      if count - 1 = 0 ∧ cur.isSome then
        (match cur with | some l => (c :: l).reverse | none => []) ::
          braceScanAux cs (count - 1) none
      else braceScanAux cs (count - 1) (cur.map (fun l => c :: l))
    else braceScanAux cs count (cur.map (fun l => c :: l))

/-- Tier-2 candidate blocks of the raw text. -/
def braceScanBlocks (s : List Char) : List (List Char) := braceScanAux s 0 none

/-- The cleaning pipeline applied to every candidate block (tier 1 also
strips the capture first). -/
def cleanCandidate (strip : Bool) (s : List Char) : List Char :=
  fix_missing_braces (clean_trailing_commas (fix_missing_commas_between_keys
    (smartQuotes (collapseWs (collapseNRT (if strip then stripChars s else s))))))

/-- Clean each candidate and keep the successfully parsed ones. -/
def parsedBlocks (strip : Bool) (candidates : List (List Char)) : List PyVal :=
  candidates.filterMap (fun c => pyJsonLoads (cleanCandidate strip c))

/-- `merged = {}; for block in json_blocks: merged.update(block)`. -/
def mergeObjs (blocks : List PyVal) : PyVal :=
  .obj (blocks.foldl
    (fun acc b =>
      match b with
      | .obj prs => prs.foldl (fun a p => insertPair a p.1 p.2) acc
      | _ => acc)
    [])

/-- The sentinel returned when no tier recovers any JSON. -/
def errSentinel : PyVal := .obj [("error", .str "No valid JSON found")]

/-- `json_blocks` after tiers 1–2: the fenced captures are parsed when the
regex matched at all, `else` the brace-counting scan runs. -/
def tier12Blocks (rt : List Char) : List PyVal :=
  if fencedMatches rt ≠ [] then parsedBlocks true (fencedMatches rt)
  else parsedBlocks false (braceScanBlocks rt)

/-- Tier 3: the implicit-object wrap attempted when `json_blocks` is empty. -/
def tier3Fallback (rt : List Char) : PyVal :=
  let cleaned := stripChars rt
  if cleaned.head? ≠ some '{' ∧ ':' ∈ cleaned then
    match pyJsonLoads (cleanCandidate false ('{' :: cleaned ++ ['}'])) with
    | some v => v
    | none => errSentinel
  else errSentinel

/-- `extract_json_from_response` from `utils/utility.py`: markdown-fenced
scan, `else` brace-counting scan, merge, and the implicit-object wrap
fallback. -/
def extract_json_from_response (response_text : String) : PyVal :=
  match tier12Blocks response_text.data with
  | [b] => b
  | [] => tier3Fallback response_text.data
  | bs =>
    if bs.all PyVal.isObj then mergeObjs bs else .arr bs

/-! ## Prompter (`prompter/prompter.py` and the zero/few-shot strategies)

Template YAML loading is file I/O: the placeholder order a template supplies
is passed in as the `order : List String` parameter.  Python exceptions that
can escape the embedded code are modelled with `Except PyErr`. -/

/-- The Python exceptions the embedded fragment can raise. -/
inductive PyErr where
  /-- `ValueError("Few-shot mode requires an 'examples' array …")` from
  `FewShot._select_examples` — the spec's designated `MissingExamplesError`. -/
  | missingExamples
  /-- `ValueError("Unknown strategy …")` from `get_strategy_cls`. -/
  | unknownStrategy
  /-- `TypeError`, e.g. `str.join` over non-string items or `None + float`. -/
  | typeError
  /-- `AttributeError`, e.g. `.lower()` on a non-string. -/
  | attributeError
  deriving Repr, DecidableEq

instance {ε α : Type} [DecidableEq ε] [DecidableEq α] : DecidableEq (Except ε α) :=
  fun x y =>
    match x, y with
    | .ok a, .ok b =>
      if h : a = b then .isTrue (by rw [h])
      else .isFalse (by intro hh; cases hh; exact h rfl)
    | .error a, .error b =>
      if h : a = b then .isTrue (by rw [h])
      else .isFalse (by intro hh; cases hh; exact h rfl)
    | .ok _, .error _ => .isFalse (by intro hh; cases hh)
    | .error _, .ok _ => .isFalse (by intro hh; cases hh)

/-- A schema JSON document (Python dict). -/
abbrev Schema := List (String × PyVal)

def schemaGet (schema : Schema) (k : String) : Option PyVal := PyVal.dictGet schema k

/-- Python `a or b` where `a` may be absent (`None`). -/
def pyOrOpt (a b : Option PyVal) : Option PyVal :=
  match a with
  | some v => if v.truthy then some v else b
  | none => b

/-- Python `a or b` with a present fallback. -/
def pyOrVal (a : Option PyVal) (b : PyVal) : PyVal :=
  match a with
  | some v => if v.truthy then v else b
  | none => b

/-- `str.strip()` / `str.lower()` on `String` (ASCII case mapping). -/
def pyStripStr (s : String) : String := String.mk (stripChars s.data)

def pyLowerStr (s : String) : String := String.mk (s.data.map Char.toLower)

@[simp] theorem exceptBind_ok {ε α β : Type} (a : α) (f : α → Except ε β) :
    (Except.ok a : Except ε α) >>= f = f a := rfl

@[simp] theorem exceptBind_error {ε α β : Type} (e : ε) (f : α → Except ε β) :
    (Except.error e : Except ε α) >>= f = Except.error e := rfl

/-- Python `repr` for JSON-shaped values (containers use `repr` on their
elements; string quoting is approximated with plain single quotes, enough for
the schemas at issue which never hit this path with quote characters). -/
def pyRepr : PyVal → String
  | .null => "None"
  | .bool true => "True"
  | .bool false => "False"
  | .num n => toString n
  | .str s => "'" ++ s ++ "'"
  | .arr items => "[" ++ String.intercalate ", " (items.attach.map (fun x => pyRepr x.1)) ++ "]"
  | .obj pairs =>
    "\x7b" ++ String.intercalate ", "
      (pairs.attach.map (fun x => "'" ++ x.1.1 ++ "': " ++ pyRepr x.1.2)) ++ "\x7d"
termination_by v => sizeOf v
decreasing_by
  · have := List.sizeOf_lt_of_mem x.2
    simp only [PyVal.arr.sizeOf_spec]
    omega
  · have h1 := List.sizeOf_lt_of_mem x.2
    have h2 : sizeOf x.1.2 < sizeOf x.1 := by
      obtain ⟨a, b⟩ := x.1; simp
    simp only [PyVal.obj.sizeOf_spec]
    omega

/-- Python `str(value)`. -/
def pyStr : PyVal → String
  | .str s => s
  | .null => "None"
  | .bool true => "True"
  | .bool false => "False"
  | .num n => toString n
  | v => pyRepr v

/-- `"\n".join(value)`: joins a list of strings (`TypeError` on non-string
items), the characters of a string, or the keys of a dict — CPython's
iteration semantics. -/
def pyJoinNl : PyVal → Except PyErr String
  | .arr items => do
    let strs ← items.mapM (fun v =>
      match v with
      | .str s => Except.ok s
      | _ => Except.error PyErr.typeError)
    .ok (String.intercalate "\n" strs)
  | .str s => .ok (String.intercalate "\n" (s.data.map (fun c => String.mk [c])))
  | .obj pairs => .ok (String.intercalate "\n" (pairs.map (fun p => p.1)))
  | _ => .error PyErr.typeError

/-- `_wrap(placeholder, value)` from `prompter/prompter.py`. -/
def wrapValue (placeholder : String) (value : PyVal) : Except PyErr String :=
  if value = .null ∨ value = .str "" then .ok ""
  else if placeholder = "INSTRUCTIONS" ∧ value.isArr = true then
    pyJoinNl value
  else if placeholder = "SCHEMAS" then
    .ok ("Schema:\n" ++ (match value with
      | .str s => s
      | v => pyJsonDumpsIndent2 false v))
  else if placeholder = "EXAMPLE" ∨ placeholder = "EXAMPLES" then
    .ok ("Examples:\n" ++ (match value with
      | .str s => s
      | v => pyJsonDumpsIndent2 false v))
  else .ok (pyStr value)

/-- `_wrap` lifted to the possibly-absent content `values.get(key) or
ph.get(key)` (`_wrap` maps `None` to the empty section). -/
def wrapContent (placeholder : String) : Option PyVal → Except PyErr String
  | none => .ok ""
  | some v => wrapValue placeholder v

/-- `ZeroShot.placeholder_values` — `EXAMPLE` intentionally omitted. -/
def zeroShotValues (ph : Schema) : List (String × PyVal) :=
  [("PERSONA", (schemaGet ph "PERSONA").getD (.str "")),
   ("TASK", (schemaGet ph "TASK").getD (.str "")),
   ("INSTRUCTIONS", (schemaGet ph "INSTRUCTIONS").getD (.arr [])),
   ("SCHEMAS", (schemaGet ph "SCHEMAS").getD (.obj []))]

/-- `FewShot._select_examples`: the `or`-chain over the four accepted key
spellings; hard `ValueError` when the chain is falsy. -/
def selectExamples (ph : Schema) : Except PyErr PyVal :=
  let inside := pyOrVal (schemaGet ph "EXAMPLES")
    (pyOrVal (schemaGet ph "examples")
      (pyOrVal (schemaGet ph "EXAMPLE")
        (pyOrVal (schemaGet ph "example") (.arr []))))
  if inside.truthy then .ok inside else .error .missingExamples

/-- `FewShot.placeholder_values`. -/
def fewShotValues (ph : Schema) : Except PyErr (List (String × PyVal)) := do
  let examples ← selectExamples ph
  let ins ← pyJoinNl ((schemaGet ph "INSTRUCTIONS").getD (.arr []))
  .ok [("PERSONA", (schemaGet ph "PERSONA").getD (.str "")),
       ("TASK", (schemaGet ph "TASK").getD (.str "")),
       ("INSTRUCTIONS", .str ins),
       ("SCHEMAS", .str (pyJsonDumpsIndent2 true ((schemaGet ph "SCHEMAS").getD (.obj [])))),
       ("EXAMPLE", .str (pyJsonDumpsIndent2 false examples))]

/-- `get_strategy_cls` + `placeholder_values()` for the registered
strategies (`zero`, `few`, `raw`; names are lower-cased first). -/
def strategyValues (strategy : String) (ph : Schema) :
    Except PyErr (List (String × PyVal)) :=
  let key := pyLowerStr strategy
  if key = "zero" then .ok (zeroShotValues ph)
  else if key = "few" then fewShotValues ph
  else if key = "raw" then .ok [("PROMPT", (schemaGet ph "PROMPT").getD (.str ""))]
  else .error .unknownStrategy

/-- `dict.setdefault(k, v)`. -/
def setdefault (values : List (String × PyVal)) (k : String) (v : PyVal) :
    List (String × PyVal) :=
  if values.any (fun p => p.1 = k) then values else values ++ [(k, v)]

/-- The per-placeholder section loop of `Prompter.build`. -/
def buildSections (vals : List (String × PyVal)) (schema : Schema) :
    List String → Except PyErr (List String)
  | [] => .ok []
  | k :: ks => do
    let content := pyOrOpt (PyVal.dictGet vals k) (schemaGet schema k)
    let part ← wrapContent k content
    let rest ← buildSections vals schema ks
    .ok (if part ≠ "" then part :: rest else rest)

/-- `Prompter.build()` for the strategy named `strategy`, schema dict
`schema` and template placeholder order `order`. -/
def prompterBuild (strategy : String) (schema : Schema) (order : List String) :
    Except PyErr String := do
  let vals ← strategyValues strategy schema
  let vals := setdefault vals "TASK" ((schemaGet schema "TASK").getD (.str ""))
  let sections ← buildSections vals schema order
  .ok (pyStripStr (String.intercalate "\n\n" sections))

/-- `Classifier.__init__` / `Structurer.__init__` both compute
`self.base_prompt = Prompter(schema_json=…, strategy=prompt_mode).build()`
before any item is processed; an error here aborts stage construction and no
prompt string exists. -/
def stageInitBasePrompt (prompt_mode : String) (schema : Schema)
    (order : List String) : Except PyErr String :=
  prompterBuild prompt_mode schema order

/-! ## Classification stage (`extractor/classifier.py`) and
extraction stage (`extractor/structurer.py`)

An input paragraph carries the `Source`/`Text`/`text` string fields of the
data model.  The LLM is an oracle `beh : Nat → Option (String × Rat)`: for
item index `idx`, `none` means `self.llm.inference(prompt)` raised and
`some (gen, d)` means it returned `{"generated_text": gen}` after `d` seconds
of measured wall-clock time.  Logging and progress ticks are observability
side effects with no bearing on the data flow and are not modelled. -/

/-- A paragraph dict: optional `Source`, `Text` and `text` entries
(string-valued, per the data model in the conversion artifact). -/
structure Para where
  sourceV : Option String
  textU : Option String
  textL : Option String
  deriving Repr, DecidableEq

/-- Python `a or b` on optional strings (`""` is falsy). -/
def orEmptyStr (a : Option String) (b : String) : String :=
  match a with
  | some s => if s ≠ "" then s else b
  | none => b

/-- `(item.get("Text") or item.get("text") or "").strip()`. -/
def paraText (p : Para) : String :=
  pyStripStr (orEmptyStr p.textU (orEmptyStr p.textL ""))

/-- `f'{base_prompt}\n\n"text": "{text}"'` — the per-item prompt. -/
def itemPrompt (basePrompt text : String) : String :=
  basePrompt ++ "\n\n\"text\": \"" ++ text ++ "\""

/-- Python `round(x, 2)` (round-half-even at two decimals, on the exact
rational; binary-float representation effects are not modelled). -/
def pyRound2 (q : Rat) : Rat :=
  let n : Int := (q * 100).floor
  let f : Rat := q * 100 - (n : Rat)
  let r : Int :=
    if f > 1 / 2 then n + 1
    else if f < 1 / 2 then n
    else if n % 2 = 0 then n else n + 1
  (r : Rat) / 100

/-- A Classification Record: `{**item, "classification": …, "raw_output": …,
"prompt": …, "duration": …}`. -/
structure ClsRecord where
  item : Para
  classification : String
  raw_output : String
  prompt : String
  duration : Option Rat
  deriving Repr, DecidableEq

/-- `(parsed.get("classification") or "").lower().strip()` with CPython
semantics: `.get` on a non-dict raises `AttributeError`; so does `.lower()`
on a truthy non-string value. -/
def labelValue (parsed : PyVal) : Except PyErr String :=
  match parsed with
  | .obj prs =>
    match pyOrVal (PyVal.dictGet prs "classification") (.str "") with
    | .str s => .ok (pyStripStr (pyLowerStr s))
    | _ => .error .attributeError
  | _ => .error .attributeError

/-- The body of `Classifier.predict`'s loop for one paragraph: builds the
prompt, asks the oracle (exception → `raw = ""`, `duration = None`), extracts
and validates the label, and forms the record.  The uncaught
`AttributeError` of the label line propagates. -/
def clsStep (basePrompt : String) (behAt : Option (String × Rat)) (p : Para) :
    Except PyErr ClsRecord := do
  let text := paraText p
  let prompt := itemPrompt basePrompt text
  let (raw, duration) :=
    match behAt with
    | some (gen, d) => (gen, some (pyRound2 d))
    | none => ("", none)
  let parsed := extract_json_from_response raw
  let label0 ← labelValue parsed
  let label := if label0 = "relevant" ∨ label0 = "irrelevant" then label0 else "irrelevant"
  .ok { item := p, classification := label, raw_output := raw
        prompt := prompt, duration := duration }

/-- The per-paragraph loop of `Classifier.predict`: emits each record into
`full` (and into `relevant` when labelled relevant); an uncaught exception
aborts the whole batch. -/
def clsLoop (basePrompt : String) (beh : Nat → Option (String × Rat)) :
    Nat → List Para → Except PyErr (List ClsRecord × List ClsRecord)
  | _, [] => .ok ([], [])
  | idx, p :: ps => do
    let record ← clsStep basePrompt (beh idx) p
    let (full, relevant) ← clsLoop basePrompt beh (idx + 1) ps
    .ok (record :: full,
         if record.classification = "relevant" then record :: relevant else relevant)

/-- `Classifier.predict(dataset)` (the returned base prompt, identical to the
argument, is left implicit). -/
def classifierPredict (basePrompt : String) (beh : Nat → Option (String × Rat))
    (dataset : List Para) : Except PyErr (List ClsRecord × List ClsRecord) :=
  clsLoop basePrompt beh 0 dataset

/-- An Extraction Record: `{**item, "data": …, "raw_output": …,
"prompt": …, "duration": …}` where `item` is a Classification Record. -/
structure ExtRecord where
  item : ClsRecord
  data : PyVal
  raw_output : String
  prompt : String
  duration : Option Rat
  deriving Repr, DecidableEq

/-- The per-item loop of `Structurer.predict`.  Note the duration line
`round(time.time() - start_time + item.get("duration"), 2)` sits inside the
`try`: when the upstream duration is `None` the addition raises `TypeError`,
the handler runs, and the record is emitted with `raw = ""` and
`duration = None` even though the LLM call succeeded. -/
def structLoop (basePrompt : String) (beh : Nat → Option (String × Rat)) :
    Nat → List ClsRecord → List ExtRecord
  | _, [] => []
  | idx, it :: its =>
    let text := paraText it.item
    let prompt := itemPrompt basePrompt text
    let (raw, duration) :=
      match beh idx with
      | some (gen, d) =>
        match it.duration with
        | some u => (gen, some (pyRound2 (d + u)))
        | none => ("", (none : Option Rat))
      | none => ("", none)
    let extracted := extract_json_from_response raw
    { item := it, data := extracted, raw_output := raw
      prompt := prompt, duration := duration } :: structLoop basePrompt beh (idx + 1) its

/-- `Structurer.predict(dataset)` over the relevant subset. -/
def structurerPredict (basePrompt : String) (beh : Nat → Option (String × Rat))
    (dataset : List ClsRecord) : List ExtRecord :=
  structLoop basePrompt beh 0 dataset

/-! ## Theorems for the claims -/

/-- A paragraph fixture used by concrete evaluations. -/
def paraP : Para := { sourceV := none, textU := some "p", textL := none }

/-- `C3`: the spec claims every parsed label value other than
`"relevant"`/`"irrelevant"` (including parse failure) is forced to
`"irrelevant"`.  The code contradicts this (and its own forcing intent, cf.
the `"Invalid label '%s' – forcing 'irrelevant'"` path): when the LLM returns
`{"classification": 5}`, the parsed label is the truthy non-string `5`, so
`(parsed.get("classification") or "").lower()` raises `AttributeError`
outside any `try`, aborting the whole batch with no record at all. -/
theorem C3_truthy_nonstring_label_aborts_batch :
    classifierPredict "BP"
      (fun _ => some ("\x7b\"classification\": 5\x7d", 1)) [paraP]
      = .error PyErr.attributeError := by decide

/-- Classification-record fixture with a null upstream duration. -/
def clsRecNoDur : ClsRecord :=
  { item := paraP, classification := "relevant", raw_output := "r"
    prompt := "pr", duration := none }

/-- `C6` counterexample: for an item whose upstream classification duration
is null and an LLM call that succeeds (output `"out"`, duration `1`), the
claim says the stored duration is the accumulated per-item latency; the code
instead emits the record with duration null and raw output `""` (the
`None + float` addition raises inside the `try` and the handler discards the
successful output). -/
theorem C6_counterexample :
    (structurerPredict "BP" (fun _ => some ("out", 1)) [clsRecNoDur]).map
      (fun r => (r.duration, r.raw_output)) = [((none : Option Rat), "")] := by
  decide

/-- `C6` (amended): when the upstream duration is a number `u` and the LLM
call succeeds with measured duration `d`, the stored duration is
`round(d + u, 2)`; when the upstream duration is null the emitted record has
duration null and raw output `""` regardless of the call's success. -/
theorem C6_duration_accumulation (bp : String) (beh : Nat → Option (String × Rat))
    (idx : Nat) (it : ClsRecord) (rest : List ClsRecord) (gen : String) (d u : Rat) :
    (beh idx = some (gen, d) → it.duration = some u →
      (structLoop bp beh idx (it :: rest)).head?.map (fun r => r.duration)
        = some (some (pyRound2 (d + u)))) ∧
    (it.duration = none →
      (structLoop bp beh idx (it :: rest)).head?.map (fun r => (r.duration, r.raw_output))
        = some (none, "")) := by
  constructor
  · intro hb hd
    simp [structLoop, hb, hd]
  · intro hd
    cases hb : beh idx with
    | none => simp [structLoop, hb, hd]
    | some p => cases p with
      | mk gen2 d2 => simp [structLoop, hb, hd]

/-- Witness for `C6_duration_accumulation` at `d = 5/4`, `u = 5/2` and at a
null upstream duration. -/
theorem C6_duration_accumulation_witness :
    ((structLoop "BP" (fun _ => some ("out", 5/4)) 0
        [{ clsRecNoDur with duration := some (5/2) }]).head?.map
      (fun r => r.duration) = some (some (pyRound2 (5/4 + 5/2)))) ∧
    ((structLoop "BP" (fun _ => some ("out", 1)) 0 [clsRecNoDur]).head?.map
      (fun r => (r.duration, r.raw_output)) = some (none, "")) :=
  ⟨(C6_duration_accumulation "BP" (fun _ => some ("out", 5/4)) 0
      { clsRecNoDur with duration := some (5/2) } [] "out" (5/4) (5/2)).1 rfl rfl,
   (C6_duration_accumulation "BP" (fun _ => some ("out", 1)) 0
      clsRecNoDur [] "out" 1 1).2 rfl⟩

/-- `C7` counterexample: on the text holding a malformed fenced block plus a
parseable bare JSON object, the claim says the brace-scan tier recovers
`{"b": 1}`; the code skips the scan tier (the fence regex matched, merely
failed to parse) and falls through to the implicit-wrap tier, returning the
error sentinel. -/
theorem C7_counterexample :
    extract_json_from_response "```json\n\x7b\"a\": \x7d\n```\n\x7b\"b\": 1\x7d"
        = errSentinel ∧
      errSentinel ≠ PyVal.obj [("b", PyVal.num 1)] := by
  constructor
  · decide
  · decide

/-- `C8` counterexample: the claim (spec Scenario B) says the bare key:value
text is wrapped and parsed to `{"key1": "a", "key2": "b"}`; the code does
not produce that object. -/
theorem C8_counterexample :
    extract_json_from_response "key1: \"a\"\nkey2: \"b\""
      ≠ PyVal.obj [("key1", PyVal.str "a"), ("key2", PyVal.str "b")] := by
  decide

/-- `C8` (amended): on `key1: "a"\nkey2: "b"` the implicit-object wrap and
the repair steps are attempted, but the candidate is still invalid JSON (the
keys are unquoted, and the newline collapse runs before the line-based comma
fixer so no comma is inserted), and the function returns the sentinel
`{"error": "No valid JSON found"}`. -/
theorem C8_bare_pairs_yield_sentinel :
    extract_json_from_response "key1: \"a\"\nkey2: \"b\"" = errSentinel := by
  decide

/-- `C9` counterexample: extraction of the fenced block succeeds with
`{"a": "x}y"}` (the lazy regex close skips the in-string brace and the brace
counts make `fix_missing_braces` a no-op), but re-extracting its
`json.dumps` serialization fails — the brace-counting scan slices at the
in-string `}` — so the second extraction returns the sentinel, not the same
object. -/
theorem C9_counterexample :
    extract_json_from_response "```json\n\x7b\"a\": \"x\x7dy\"\x7d\n```"
        = PyVal.obj [("a", PyVal.str "x\x7dy")] ∧
      extract_json_from_response
          (pyJsonDumps (PyVal.obj [("a", PyVal.str "x\x7dy")])) = errSentinel ∧
      errSentinel ≠ PyVal.obj [("a", PyVal.str "x\x7dy")] := by
  refine ⟨by decide, by decide, by decide⟩

/-- `C2`: for any schema whose four accepted example keys are each absent or
an empty array, and any template order, building the few-shot base prompt at
stage construction fails with the designated missing-examples error
(`ValueError` in the source, the spec's `MissingExamplesError`) before any
item is processed, and no prompt string is produced. -/
theorem C2_few_shot_fails_without_examples (schema : Schema) (order : List String)
    (h : ∀ k ∈ (["EXAMPLES", "examples", "EXAMPLE", "example"] : List String),
      schemaGet schema k = none ∨ schemaGet schema k = some (PyVal.arr [])) :
    stageInitBasePrompt "few" schema order = .error PyErr.missingExamples := by
  have h1 := h "EXAMPLES" (by simp)
  have h2 := h "examples" (by simp)
  have h3 := h "EXAMPLE" (by simp)
  have h4 := h "example" (by simp)
  have htl : pyLowerStr "few" = "few" := by decide
  unfold stageInitBasePrompt prompterBuild strategyValues fewShotValues selectExamples
  rcases h1 with h1 | h1 <;> rcases h2 with h2 | h2 <;>
    rcases h3 with h3 | h3 <;> rcases h4 with h4 | h4 <;>
    simp [pyOrVal, PyVal.truthy, htl, h1, h2, h3, h4]

/-- Witness for `C2_few_shot_fails_without_examples`: a schema with only a
`TASK` entry. -/
theorem C2_few_shot_fails_without_examples_witness :
    (∀ k ∈ (["EXAMPLES", "examples", "EXAMPLE", "example"] : List String),
      schemaGet [("TASK", PyVal.str "t")] k = none ∨
        schemaGet [("TASK", PyVal.str "t")] k = some (PyVal.arr [])) ∧
    stageInitBasePrompt "few" [("TASK", PyVal.str "t")]
      ["PERSONA", "TASK", "INSTRUCTIONS", "SCHEMAS", "EXAMPLE"]
      = .error PyErr.missingExamples :=
  ⟨by decide,
   C2_few_shot_fails_without_examples [("TASK", PyVal.str "t")]
     ["PERSONA", "TASK", "INSTRUCTIONS", "SCHEMAS", "EXAMPLE"] (by decide)⟩

/-- `C5`: for every relevant-subset input of size N and every oracle
behaviour (including per-item exceptions), `Structurer.predict` emits
exactly N records, in input order, each carrying its input item — no item is
ever dropped. -/
theorem C5_extraction_one_to_one (basePrompt : String)
    (beh : Nat → Option (String × Rat)) (dataset : List ClsRecord) :
    (structurerPredict basePrompt beh dataset).length = dataset.length ∧
    (structurerPredict basePrompt beh dataset).map (fun r => r.item) = dataset := by
  have key : ∀ (ds : List ClsRecord) (idx : Nat),
      (structLoop basePrompt beh idx ds).map (fun r => r.item) = ds := by
    intro ds
    induction ds with
    | nil => intro idx; rfl
    | cons it its ih =>
      intro idx
      cases hb : beh idx with
      | none => simp [structLoop, hb, ih]
      | some pr =>
        obtain ⟨gen, d⟩ := pr
        cases hd : it.duration with
        | none => simp [structLoop, hb, hd, ih]
        | some u => simp [structLoop, hb, hd, ih]
  refine ⟨?_, key dataset 0⟩
  have hlen := congrArg List.length (key dataset 0)
  simpa using hlen

/-- A successful `clsStep` record carries its input paragraph. -/
theorem clsStep_item (bp : String) (behAt : Option (String × Rat)) (p : Para)
    (record : ClsRecord) (h : clsStep bp behAt p = .ok record) :
    record.item = p := by
  cases behAt with
  | none =>
    simp only [clsStep] at h
    cases hl : labelValue (extract_json_from_response "") with
    | error e => rw [hl] at h; simp at h
    | ok l =>
      rw [hl] at h
      simp only [exceptBind_ok, Except.ok.injEq] at h
      rw [← h]
  | some pr =>
    obtain ⟨gen, d⟩ := pr
    simp only [clsStep] at h
    cases hl : labelValue (extract_json_from_response gen) with
    | error e => rw [hl] at h; simp at h
    | ok l =>
      rw [hl] at h
      simp only [exceptBind_ok, Except.ok.injEq] at h
      rw [← h]

/-- Helper for `C4`: the loop invariant of `Classifier.predict` — on success
the relevant list is the order-preserving filter of the full list and the
full list carries the input items in order. -/
theorem clsLoop_ok_spec (bp : String) (beh : Nat → Option (String × Rat)) :
    ∀ (ds : List Para) (idx : Nat) (full rel : List ClsRecord),
      clsLoop bp beh idx ds = .ok (full, rel) →
      rel = full.filter (fun r => r.classification == "relevant") ∧
      full.map (fun r => r.item) = ds := by
  intro ds
  induction ds with
  | nil =>
    intro idx full rel h
    simp only [clsLoop, Except.ok.injEq, Prod.mk.injEq] at h
    obtain ⟨h1, h2⟩ := h
    subst h1; subst h2
    simp
  | cons p ps ih =>
    intro idx full rel h
    simp only [clsLoop] at h
    cases hs : clsStep bp (beh idx) p with
    | error e => rw [hs] at h; simp at h
    | ok record =>
      rw [hs] at h
      cases hrec : clsLoop bp beh (idx + 1) ps with
      | error e => rw [hrec] at h; simp at h
      | ok pr =>
        obtain ⟨f2, r2⟩ := pr
        rw [hrec] at h
        simp only [exceptBind_ok, Except.ok.injEq, Prod.mk.injEq] at h
        obtain ⟨hfull, hrel⟩ := h
        obtain ⟨hfi, hmap⟩ := ih (idx + 1) f2 r2 hrec
        subst hfull
        subst hrel
        constructor
        · by_cases hc : record.classification = "relevant" <;>
            simp [hc, hfi, List.filter_cons]
        · simp [hmap, clsStep_item bp (beh idx) p record hs]

/-- `C4`: whenever `Classifier.predict` returns, `relevant_results` is
exactly the order-preserving sublist of `all_results` with classification
`"relevant"`, and `all_results` matches the input in length and order. -/
theorem C4_relevant_is_filtered_full (basePrompt : String)
    (beh : Nat → Option (String × Rat)) (dataset : List Para)
    (full relevant : List ClsRecord)
    (h : classifierPredict basePrompt beh dataset = .ok (full, relevant)) :
    relevant = full.filter (fun r => r.classification == "relevant") ∧
    full.length = dataset.length ∧
    full.map (fun r => r.item) = dataset := by
  obtain ⟨hfi, hmap⟩ := clsLoop_ok_spec basePrompt beh dataset 0 full relevant h
  refine ⟨hfi, ?_, hmap⟩
  have := congrArg List.length hmap
  simpa using this

/-- The record produced for `paraP` when the LLM call raises. -/
def recNoLLM : ClsRecord :=
  { item := paraP, classification := "irrelevant", raw_output := ""
    prompt := "\n\n\"text\": \"p\"", duration := none }

/-- Witness for `C4_relevant_is_filtered_full`: one paragraph whose LLM call
raises. -/
theorem C4_relevant_is_filtered_full_witness :
    ([] : List ClsRecord) = [recNoLLM].filter (fun r => r.classification == "relevant") ∧
    [recNoLLM].length = [paraP].length ∧
    [recNoLLM].map (fun r => r.item) = [paraP] :=
  C4_relevant_is_filtered_full "" (fun _ => none) [paraP] [recNoLLM] [] (by decide)

/-- Contiguous-segment containment on character lists (used to state that a
prompt contains a literal substring). -/
def segOccurs (needle : List Char) : List Char → Bool
  | [] => needle.isPrefixOf []
  | c :: t => needle.isPrefixOf (c :: t) || segOccurs needle t

/-- `C1` counterexample: with a schema holding a non-empty `EXAMPLE` field
and the documented template order (spec Scenario E lists
`[PERSONA, TASK, INSTRUCTIONS, SCHEMAS, EXAMPLE]` for zero-shot),
`Prompter.build` falls back from the zero-shot strategy values to the raw
schema field (`values.get(key) or self._ph.get(key)`) and the prompt contains
`"Examples:"`. -/
theorem C1_counterexample :
    (match prompterBuild "zero"
        [("PERSONA", PyVal.str "X"),
         ("EXAMPLE", PyVal.arr [PyVal.obj [("text", PyVal.str "t")]])]
        ["PERSONA", "TASK", "INSTRUCTIONS", "SCHEMAS", "EXAMPLE"] with
      | .ok s => segOccurs "Examples:".data s.data
      | .error _ => false) = true := by
  decide

/-- Schema lookups ignore a removed `EXAMPLE` entry for every other key. -/
theorem schemaGet_filter_ne (schema : Schema) (k : String) (hk : k ≠ "EXAMPLE") :
    schemaGet (schema.filter (fun q => q.1 ≠ "EXAMPLE")) k = schemaGet schema k := by
  induction schema with
  | nil => rfl
  | cons q qs ih =>
    simp only [schemaGet, PyVal.dictGet] at ih ⊢
    by_cases hq : q.1 = "EXAMPLE"
    · rw [List.filter_cons_of_neg (by simp [hq]),
          List.find?_cons_of_neg _
            (by simp only [hq, decide_eq_true_eq]; exact fun hc => hk hc.symm)]
      exact ih
    · rw [List.filter_cons_of_pos (by simp [hq])]
      by_cases hqk : q.1 = k
      · rw [List.find?_cons_of_pos _ (by simp [hqk]),
            List.find?_cons_of_pos _ (by simp [hqk])]
      · rw [List.find?_cons_of_neg _ (by simp [hqk]),
            List.find?_cons_of_neg _ (by simp [hqk])]
        exact ih

/-- `buildSections` ignores a removed `EXAMPLE` entry when no placeholder in
the order is `EXAMPLE`. -/
theorem buildSections_filter_example (vals : List (String × PyVal)) (schema : Schema) :
    ∀ order : List String, "EXAMPLE" ∉ order →
      buildSections vals (schema.filter (fun q => q.1 ≠ "EXAMPLE")) order =
        buildSections vals schema order := by
  intro order
  induction order with
  | nil => intro _; rfl
  | cons k ks ih =>
    intro h
    have hk : k ≠ "EXAMPLE" := fun hc => h (by simp [hc])
    have hks : "EXAMPLE" ∉ ks := fun hc => h (by simp [hc])
    simp only [buildSections, schemaGet_filter_ne schema k hk, ih hks]

/-- `strategyValues` for the zero strategy never fails and reads only the
four zero-shot keys. -/
theorem strategyValues_zero (ph : Schema) :
    strategyValues "zero" ph = .ok (zeroShotValues ph) := rfl

/-- `C1` (amended): the zero-shot strategy itself never supplies `EXAMPLE`,
so for any template order that does not list the `EXAMPLE` placeholder the
zero-shot prompt is independent of the schema's `EXAMPLE` field — deleting
the field changes nothing, hence its examples cannot appear.  (For orders
that do list `EXAMPLE`, `build`'s raw-schema fallback leaks the examples, as
the counterexample shows.) -/
theorem C1_zero_shot_ignores_example_field (schema : Schema) (order : List String)
    (h : "EXAMPLE" ∉ order) :
    prompterBuild "zero" (schema.filter (fun q => q.1 ≠ "EXAMPLE")) order =
      prompterBuild "zero" schema order := by
  have hv : zeroShotValues (schema.filter (fun q => q.1 ≠ "EXAMPLE")) =
      zeroShotValues schema := by
    unfold zeroShotValues
    rw [schemaGet_filter_ne schema "PERSONA" (by decide),
        schemaGet_filter_ne schema "TASK" (by decide),
        schemaGet_filter_ne schema "INSTRUCTIONS" (by decide),
        schemaGet_filter_ne schema "SCHEMAS" (by decide)]
  unfold prompterBuild
  rw [strategyValues_zero, strategyValues_zero, hv]
  simp only [exceptBind_ok]
  rw [schemaGet_filter_ne schema "TASK" (by decide),
      buildSections_filter_example _ schema order h]

/-- Witness for `C1_zero_shot_ignores_example_field`: a schema with a
non-empty `EXAMPLE` field and the template order without `EXAMPLE`. -/
theorem C1_zero_shot_ignores_example_field_witness :
    "EXAMPLE" ∉ (["PERSONA", "TASK", "INSTRUCTIONS", "SCHEMAS"] : List String) ∧
    prompterBuild "zero"
        (([("PERSONA", PyVal.str "X"), ("EXAMPLE", PyVal.arr [PyVal.str "e"])] :
          Schema).filter (fun q => q.1 ≠ "EXAMPLE"))
        ["PERSONA", "TASK", "INSTRUCTIONS", "SCHEMAS"] =
      prompterBuild "zero"
        [("PERSONA", PyVal.str "X"), ("EXAMPLE", PyVal.arr [PyVal.str "e"])]
        ["PERSONA", "TASK", "INSTRUCTIONS", "SCHEMAS"] :=
  ⟨by decide,
   C1_zero_shot_ignores_example_field
     [("PERSONA", PyVal.str "X"), ("EXAMPLE", PyVal.arr [PyVal.str "e"])]
     ["PERSONA", "TASK", "INSTRUCTIONS", "SCHEMAS"] (by decide)⟩

/-- `C7` (amended): the brace-counting scan is attempted exactly when the
fenced regex finds no match at all; when it does run and yields parseable
blocks, those blocks determine the result by the code's merge rule.  (When
the regex matches but nothing parses, the scan is skipped — the
counterexample.) -/
theorem C7_scan_tier_when_no_fence_match (s : String)
    (h1 : fencedMatches s.data = [])
    (h2 : parsedBlocks false (braceScanBlocks s.data) ≠ []) :
    extract_json_from_response s =
      match parsedBlocks false (braceScanBlocks s.data) with
      | [b] => b
      | bs => if bs.all PyVal.isObj then mergeObjs bs else PyVal.arr bs := by
  have hb : tier12Blocks s.data = parsedBlocks false (braceScanBlocks s.data) := by
    unfold tier12Blocks
    rw [h1]
    simp
  unfold extract_json_from_response
  rw [hb]
  cases hpb : parsedBlocks false (braceScanBlocks s.data) with
  | nil => exact absurd hpb h2
  | cons b bs => cases bs <;> rfl

/-- Witness for `C7_scan_tier_when_no_fence_match`: a bare JSON object with
no fence. -/
theorem C7_scan_tier_when_no_fence_match_witness :
    extract_json_from_response "\x7b\"b\": 1\x7d" = PyVal.obj [("b", PyVal.num 1)] :=
  (C7_scan_tier_when_no_fence_match "\x7b\"b\": 1\x7d" (by decide) (by decide)).trans
    (by decide)

/-! ### Every candidate block starts with `'\x7b'`, cleaning preserves that
head, and a full parse of such a string is an object — hence `C10`. -/

theorem dropWhile_append_last {p : Char → Bool} (c : Char) (hc : p c = false) :
    ∀ xs : List Char, ∃ ys, (xs ++ [c]).dropWhile p = ys ++ [c] := by
  intro xs
  induction xs with
  | nil => exact ⟨[], by simp [List.dropWhile, hc]⟩
  | cons x t ih =>
    by_cases hx : p x = true
    · obtain ⟨ys, hys⟩ := ih
      exact ⟨ys, by simp [List.dropWhile, hx, hys]⟩
    · exact ⟨x :: t, by simp [List.dropWhile, hx]⟩

theorem stripChars_head (c : Char) (t : List Char) (hc : isPyWs c = false) :
    ∃ u, stripChars (c :: t) = c :: u := by
  unfold stripChars lstripChars rstripChars
  rw [List.dropWhile_cons, if_neg (by simp [hc])]
  obtain ⟨ys, hys⟩ := dropWhile_append_last c hc t.reverse
  rw [show (c :: t).reverse = t.reverse ++ [c] by simp, hys]
  exact ⟨ys.reverse, by simp⟩

theorem collapseRuns_head (p : Char → Bool) (rep c : Char) (t : List Char)
    (b : Bool) (hc : p c = false) :
    collapseRuns p rep (c :: t) b = c :: collapseRuns p rep t false := by
  simp [collapseRuns, hc]

/-- Characters of a collapsed list are the replacement character or
non-trigger characters of the input: the trigger characters never
survive. -/
theorem mem_collapseRuns (p : Char → Bool) (rep : Char) :
    ∀ (s : List Char) (b : Bool) (c : Char), c ∈ collapseRuns p rep s b →
      c = rep ∨ (c ∈ s ∧ p c = false) := by
  intro s
  induction s with
  | nil => intro b c h; simp [collapseRuns] at h
  | cons x t ih =>
    intro b c h
    simp only [collapseRuns] at h
    by_cases hx : p x = true
    · rw [if_pos hx] at h
      cases b with
      | true =>
        rw [if_pos rfl] at h
        rcases ih true c h with h1 | h1
        · exact Or.inl h1
        · exact Or.inr ⟨by simp [h1.1], h1.2⟩
      | false =>
        rw [if_neg (by simp)] at h
        rcases List.mem_cons.mp h with h1 | h1
        · exact Or.inl h1
        · rcases ih true c h1 with h2 | h2
          · exact Or.inl h2
          · exact Or.inr ⟨by simp [h2.1], h2.2⟩
    · rw [if_neg hx] at h
      rcases List.mem_cons.mp h with h1 | h1
      · subst h1
        exact Or.inr ⟨by simp, by simpa using hx⟩
      · rcases ih false c h1 with h2 | h2
        · exact Or.inl h2
        · exact Or.inr ⟨by simp [h2.1], h2.2⟩

/-- `splitlinesAux` on newline-free input yields the single accumulated
line. -/
theorem splitlinesAux_no_newline :
    ∀ (s acc : List Char), (∀ c ∈ s, c ≠ '\n') →
      splitlinesAux acc s = [acc.reverse ++ s] := by
  intro s
  induction s with
  | nil => intro acc _; simp [splitlinesAux]
  | cons c t ih =>
    intro acc h
    have hc : c ≠ '\n' := h c (by simp)
    simp only [splitlinesAux, if_neg hc]
    rw [ih (c :: acc) (fun d hd => h d (by simp [hd]))]
    simp

/-- `fix_missing_commas_between_keys` is the identity on newline-free
input (the extractor always collapses newlines first). -/
theorem fixCommas_id_of_no_newline (s : List Char) (h : ∀ c ∈ s, c ≠ '\n') :
    fix_missing_commas_between_keys s = s := by
  cases s with
  | nil => rfl
  | cons c t =>
    unfold fix_missing_commas_between_keys
    rw [show splitlinesNL (c :: t) = [c :: t] from by
      rw [show splitlinesNL (c :: t) = splitlinesAux [] (c :: t) from rfl,
          splitlinesAux_no_newline (c :: t) [] h]
      rfl]
    simp [fixCommasStep, List.range_succ, List.intercalate]

theorem cleanTrailingAux_head (c : Char) (t : List Char)
    (hc : c ≠ ',') :
    cleanTrailingAux [] (c :: t) = c :: cleanTrailingAux [] t := by
  simp [cleanTrailingAux, hc]

theorem fix_missing_braces_head (c : Char) (t : List Char) :
    ∃ u, fix_missing_braces (c :: t) = c :: u := by
  unfold fix_missing_braces
  by_cases h : countChar '{' (c :: t) > countChar '}' (c :: t)
  · exact ⟨t ++ List.replicate
      (countChar '{' (c :: t) - countChar '}' (c :: t)) '}', by simp [h]⟩
  · exact ⟨t, by simp [h]⟩

/-- The whole cleaning pipeline keeps a leading `'\x7b'`. -/
theorem cleanCandidate_head (strip : Bool) (s : List Char)
    (h : s.head? = some '{') : ∃ u, cleanCandidate strip s = '{' :: u := by
  obtain ⟨t, rfl⟩ : ∃ t, s = '{' :: t := by
    cases s with
    | nil => simp at h
    | cons c t => exact ⟨t, by simpa using (by simpa using h : c = '{') ▸ rfl⟩
  unfold cleanCandidate
  have hbrace : isPyWs '{' = false := by decide
  obtain ⟨t1, ht1⟩ : ∃ t1, (if strip then stripChars ('{' :: t) else '{' :: t)
      = '{' :: t1 := by
    cases strip with
    | true => simpa using stripChars_head '{' t hbrace
    | false => exact ⟨t, by simp⟩
  rw [ht1]
  rw [show collapseNRT ('{' :: t1) = '{' :: collapseNRT t1 from
    collapseRuns_head _ ' ' '{' t1 false (by decide)]
  rw [show collapseWs ('{' :: collapseNRT t1)
      = '{' :: collapseWs (collapseNRT t1) from
    collapseRuns_head _ ' ' '{' _ false (by decide)]
  rw [show smartQuotes ('{' :: collapseWs (collapseNRT t1))
      = '{' :: smartQuotes (collapseWs (collapseNRT t1)) from by
    simp [smartQuotes]]
  set t2 := smartQuotes (collapseWs (collapseNRT t1)) with ht2
  have hnonl : ∀ c ∈ ('{' :: t2), c ≠ '\n' := by
    intro c hcm hceq
    subst hceq
    rcases List.mem_cons.mp hcm with h1 | h1
    · exact absurd h1 (by decide)
    · have h2 : '\n' ∈ collapseWs (collapseNRT t1) := by
        rw [ht2] at h1
        rcases List.mem_map.mp h1 with ⟨a, ha, hae⟩
        by_cases hq : a = '“' ∨ a = '”'
        · rw [if_pos hq] at hae
          exact absurd hae (by decide)
        · rw [if_neg hq] at hae
          rwa [hae] at ha
      rcases mem_collapseRuns _ _ _ _ _ h2 with h3 | h3
      · exact absurd h3 (by decide)
      · exact absurd h3.2 (by decide)
  rw [fixCommas_id_of_no_newline _ hnonl]
  rw [show clean_trailing_commas ('{' :: t2) = cleanTrailingAux [] ('{' :: t2) from rfl,
      cleanTrailingAux_head '{' t2 (by decide)]
  exact fix_missing_braces_head '{' _

/-- A fenced-regex capture starts with the opening brace. -/
theorem fencedMatchAt_head (s cap rest : List Char)
    (h : fencedMatchAt s = some (cap, rest)) : cap.head? = some '{' := by
  unfold fencedMatchAt at h
  split at h
  · exact absurd h (by simp)
  · split at h
    · split at h
      · simp only [Option.some.injEq, Prod.mk.injEq] at h
        rw [← h.1]
        rfl
      · exact absurd h (by simp)
    · exact absurd h (by simp)

theorem fencedFindAux_head :
    ∀ (fuel : Nat) (s : List Char) (cap : List Char),
      cap ∈ fencedFindAux fuel s → cap.head? = some '{' := by
  intro fuel
  induction fuel with
  | zero => intro s cap h; simp [fencedFindAux] at h
  | succ n ih =>
    intro s cap h
    simp only [fencedFindAux] at h
    cases hm : fencedMatchAt s with
    | some p =>
      rw [hm] at h
      rcases List.mem_cons.mp h with h1 | h1
      · exact h1 ▸ fencedMatchAt_head s p.1 p.2 (by rw [hm])
      · exact ih p.2 cap h1
    | none =>
      rw [hm] at h
      cases s with
      | nil => simp at h
      | cons c t => exact ih t cap h

/-- A brace-scan block starts with the opening brace. -/
theorem braceScanAux_head :
    ∀ (s : List Char) (count : Int) (cur : Option (List Char)),
      (∀ l, cur = some l → ∃ pre, l = pre ++ ['{']) →
      ∀ blk ∈ braceScanAux s count cur, blk.head? = some '{' := by
  intro s
  induction s with
  | nil => intro count cur _ blk h; simp [braceScanAux] at h
  | cons c t ih =>
    intro count cur hinv blk h
    simp only [braceScanAux] at h
    by_cases hc : c = '{'
    · rw [if_pos hc] at h
      by_cases h0 : count = 0
      · rw [if_pos h0] at h
        exact ih (count + 1) (some [c]) (fun l hl => ⟨[], by cases hl; simp [hc]⟩) blk h
      · rw [if_neg h0] at h
        refine ih (count + 1) (cur.map (fun l => c :: l)) ?_ blk h
        intro l hl
        cases cur with
        | none => simp at hl
        | some l0 =>
          obtain ⟨pre, hpre⟩ := hinv l0 rfl
          simp only [Option.map_some', Option.some.injEq] at hl
          exact ⟨c :: pre, by rw [← hl, hpre]; simp⟩
    · rw [if_neg hc] at h
      by_cases hc2 : c = '}'
      · rw [if_pos hc2] at h
        by_cases hemit : count - 1 = 0 ∧ cur.isSome
        · rw [if_pos hemit] at h
          rcases List.mem_cons.mp h with h1 | h1
          · cases hcur : cur with
            | none => rw [hcur] at hemit; simp at hemit
            | some l0 =>
              obtain ⟨pre, hpre⟩ := hinv l0 hcur
              rw [hcur] at h1
              simp only at h1
              rw [h1, hpre]
              simp
          · exact ih (count - 1) none (by simp) blk h1
        · rw [if_neg hemit] at h
          refine ih (count - 1) (cur.map (fun l => c :: l)) ?_ blk h
          intro l hl
          cases cur with
          | none => simp at hl
          | some l0 =>
            obtain ⟨pre, hpre⟩ := hinv l0 rfl
            simp only [Option.map_some', Option.some.injEq] at hl
            exact ⟨c :: pre, by rw [← hl, hpre]; simp⟩
      · rw [if_neg hc2] at h
        refine ih count (cur.map (fun l => c :: l)) ?_ blk h
        intro l hl
        cases cur with
        | none => simp at hl
        | some l0 =>
          obtain ⟨pre, hpre⟩ := hinv l0 rfl
          simp only [Option.map_some', Option.some.injEq] at hl
          exact ⟨c :: pre, by rw [← hl, hpre]; simp⟩

/-- `skipWs` does not move past a non-whitespace head. -/
theorem skipWs_cons_nonws (c : Char) (t : List Char) (hc : isJsonWs c = false) :
    skipWs (c :: t) = c :: t := by
  simp [skipWs, List.dropWhile_cons, hc]

/-- A successful `parseValue` on input starting with `'\x7b'` yields an
object. -/
theorem parseValue_obj_of_head (fuel : Nat) (t : List Char) (v : PyVal)
    (rest : List Char) (h : parseValue fuel ('{' :: t) = some (v, rest)) :
    v.isObj = true := by
  cases fuel with
  | zero => simp [parseValue] at h
  | succ n =>
    simp only [parseValue, skipWs_cons_nonws '{' t (by decide)] at h
    split at h
    · simp only [Option.some.injEq, Prod.mk.injEq] at h
      rw [← h.1]
      rfl
    · cases hm : parseMembers n (skipWs t) [] with
      | none => rw [hm] at h; simp at h
      | some p =>
        rw [hm] at h
        simp only [Option.map_some', Option.some.injEq, Prod.mk.injEq] at h
        rw [← h.1]
        rfl

/-- A successful `json.loads` of a string starting with `'\x7b'` is an
object. -/
theorem pyJsonLoads_obj_of_head (s : List Char) (v : PyVal)
    (hh : s.head? = some '{') (h : pyJsonLoads s = some v) : v.isObj = true := by
  obtain ⟨t, rfl⟩ : ∃ t, s = '{' :: t := by
    cases s with
    | nil => simp at hh
    | cons c t => exact ⟨t, by simpa using (by simpa using hh : c = '{') ▸ rfl⟩
  unfold pyJsonLoads at h
  cases hp : parseValue (('{' :: t).length + 1) ('{' :: t) with
  | none => rw [hp] at h; simp at h
  | some p =>
    rw [hp] at h
    simp only at h
    by_cases hrest : skipWs p.2 = []
    · rw [if_pos hrest] at h
      cases h
      exact parseValue_obj_of_head _ t p.1 p.2 hp
    · rw [if_neg hrest] at h
      simp at h

/-- Every successfully parsed candidate block whose raw text starts with
`'\x7b'` is an object. -/
theorem parsedBlocks_obj (strip : Bool) (cands : List (List Char))
    (hc : ∀ c ∈ cands, c.head? = some '{') :
    ∀ b ∈ parsedBlocks strip cands, b.isObj = true := by
  intro b hb
  unfold parsedBlocks at hb
  rw [List.mem_filterMap] at hb
  obtain ⟨cand, hcand, hload⟩ := hb
  obtain ⟨u, hu⟩ := cleanCandidate_head strip cand (hc cand hcand)
  exact pyJsonLoads_obj_of_head _ b (by rw [hu]; rfl) hload

/-- All tier-1/tier-2 blocks are objects. -/
theorem tier12Blocks_obj (rt : List Char) :
    ∀ b ∈ tier12Blocks rt, b.isObj = true := by
  intro b hb
  unfold tier12Blocks at hb
  by_cases hm : fencedMatches rt = []
  · rw [if_neg (by simp [hm])] at hb
    refine parsedBlocks_obj false (braceScanBlocks rt) ?_ b hb
    intro c hcm
    exact braceScanAux_head rt 0 none (by simp) c hcm
  · rw [if_pos (by simp [hm])] at hb
    refine parsedBlocks_obj true (fencedMatches rt) ?_ b hb
    intro c hcm
    exact fencedFindAux_head rt.length rt c hcm

/-! ### `C9`: idempotence on flat objects over ASCII letters/digits

The counterexample shows idempotence fails once a string value contains a
brace.  The amended claim restricts to flat string-to-string objects whose
keys and values consist of ASCII letters and digits; for those,
`json.dumps` output re-extracts to the same object: the fence tier finds
nothing (no backtick), the brace scan slices exactly the whole document (no
interior braces), the repair pipeline is the identity, and `json.loads`
round-trips the serialization. -/

/-- ASCII letter or digit. -/
def alnumChar (c : Char) : Bool :=
  (48 ≤ c.toNat ∧ c.toNat ≤ 57) ∨ (65 ≤ c.toNat ∧ c.toNat ≤ 90) ∨
    (97 ≤ c.toNat ∧ c.toNat ≤ 122)

def alnumChars (l : List Char) : Bool := l.all alnumChar

/-- A flat JSON object whose keys and string values are ASCII
letters/digits, with no duplicate keys. -/
def safeFlatObjB : PyVal → Bool
  | .obj prs =>
    decide ((prs.map Prod.fst).Nodup) &&
      prs.all (fun p =>
        alnumChars p.1.data &&
          (match p.2 with
           | .str s => alnumChars s.data
           | _ => false))
  | _ => false

theorem alnumChar_bounds (c : Char) (h : alnumChar c = true) :
    47 < c.toNat ∧ c.toNat < 123 := by
  simp only [alnumChar, decide_eq_true_eq] at h
  rcases h with ⟨h1, h2⟩ | ⟨h1, h2⟩ | ⟨h1, h2⟩ <;> omega

theorem ne_of_toNat_ne (c d : Char) (h : c.toNat ≠ d.toNat) : c ≠ d :=
  fun he => h (by rw [he])

/-- The character-level facts the cleaning/parsing proofs need about ASCII
letters/digits. -/
theorem alnumChar_props (c : Char) (h : alnumChar c = true) :
    c ≠ '"' ∧ c ≠ '\\' ∧ c ≠ '{' ∧ c ≠ '}' ∧ c ≠ '`' ∧ c ≠ ',' ∧
    c ≠ '“' ∧ c ≠ '”' ∧ c ≠ '\n' ∧ isPyWs c = false ∧ isNRT c = false ∧
    isJsonWs c = false ∧ ¬(c.toNat < 32) ∧ ¬(c.toNat > 126) := by
  obtain ⟨hlo, hhi⟩ := alnumChar_bounds c h
  have h34 : ('"' : Char).toNat = 34 := rfl
  have h92 : ('\\' : Char).toNat = 92 := rfl
  have h123 : ('{' : Char).toNat = 123 := rfl
  have h125 : ('}' : Char).toNat = 125 := rfl
  have h96 : ('`' : Char).toNat = 96 := rfl
  have h44 : (',' : Char).toNat = 44 := rfl
  have h10 : ('\n' : Char).toNat = 10 := rfl
  have hq1 : ('“' : Char).toNat = 8220 := rfl
  have hq2 : ('”' : Char).toNat = 8221 := rfl
  have halnum92 : c ≠ '\\' := by
    intro he
    rw [he] at h
    exact absurd h (by decide)
  have halnum96 : c ≠ '`' := by
    intro he
    rw [he] at h
    exact absurd h (by decide)
  refine ⟨ne_of_toNat_ne c '"' (by omega), halnum92,
    ne_of_toNat_ne c '{' (by omega), ne_of_toNat_ne c '}' (by omega),
    halnum96, ne_of_toNat_ne c ',' (by omega),
    ne_of_toNat_ne c '“' (by omega), ne_of_toNat_ne c '”' (by omega),
    ne_of_toNat_ne c '\n' (by omega), ?_, ?_, ?_, by omega, by omega⟩
  all_goals
    have h32 : (' ' : Char).toNat = 32 := rfl
    have h9 : ('\t' : Char).toNat = 9 := rfl
    have h13 : ('\r' : Char).toNat = 13 := rfl
    have h11 : ('\x0b' : Char).toNat = 11 := rfl
    have h12 : ('\x0c' : Char).toNat = 12 := rfl
  · simp only [isPyWs, decide_eq_false_iff_not]
    push_neg
    refine ⟨ne_of_toNat_ne c ' ' (by omega), ne_of_toNat_ne c '\t' (by omega),
      ne_of_toNat_ne c '\n' (by omega), ne_of_toNat_ne c '\r' (by omega),
      ne_of_toNat_ne c '\x0b' (by omega), ne_of_toNat_ne c '\x0c' (by omega)⟩
  · simp only [isNRT, decide_eq_false_iff_not]
    push_neg
    refine ⟨ne_of_toNat_ne c '\n' (by omega), ne_of_toNat_ne c '\r' (by omega),
      ne_of_toNat_ne c '\t' (by omega)⟩
  · simp only [isJsonWs, decide_eq_false_iff_not]
    push_neg
    refine ⟨ne_of_toNat_ne c ' ' (by omega), ne_of_toNat_ne c '\t' (by omega),
      ne_of_toNat_ne c '\n' (by omega), ne_of_toNat_ne c '\r' (by omega)⟩

/-- An ASCII letter/digit differs from any character that is not one. -/
theorem alnum_ne (c : Char) (h : alnumChar c = true) (d : Char)
    (hd : alnumChar d = false) : c ≠ d := by
  intro he
  subst he
  rw [h] at hd
  cases hd

theorem dumpEscapeChar_alnum (c : Char) (h : alnumChar c = true) :
    dumpEscapeChar true c = [c] := by
  unfold dumpEscapeChar
  rw [if_neg (alnum_ne c h '"' (by decide)),
      if_neg (alnum_ne c h '\\' (by decide)),
      if_neg (alnum_ne c h '\n' (by decide)),
      if_neg (alnum_ne c h '\t' (by decide)),
      if_neg (alnum_ne c h '\r' (by decide)),
      if_neg (alnum_ne c h '\x08' (by decide)),
      if_neg (alnum_ne c h '\x0c' (by decide)),
      if_neg (by
        obtain ⟨hlo, hhi⟩ := alnumChar_bounds c h
        push_neg
        exact ⟨by omega, fun _ => by omega⟩)]

theorem escape_flatten_id (l : List Char) (h : alnumChars l = true) :
    (l.map (dumpEscapeChar true)).flatten = l := by
  induction l with
  | nil => rfl
  | cons c t ih =>
    simp only [alnumChars, List.all_cons, Bool.and_eq_true] at h
    simp [dumpEscapeChar_alnum c h.1, ih h.2]

theorem dumpString_alnum (k : String) (h : alnumChars k.data = true) :
    dumpString true k = '"' :: k.data ++ ['"'] := by
  unfold dumpString
  rw [escape_flatten_id k.data h]

/-- The body between the braces of the compact dump of an object. -/
def objBody (prs : List (String × PyVal)) : List Char :=
  List.intercalate [',', ' '] (dumpsCompactPairs true prs)

theorem dumpsCompact_obj_eq (prs : List (String × PyVal)) :
    dumpsCompact true (.obj prs) = '{' :: objBody prs ++ ['}'] := rfl

/-- One rendered `"key": "value"` member. -/
def pairR (k v : List Char) : List Char :=
  '"' :: k ++ '"' :: ':' :: ' ' :: '"' :: v ++ ['"']

theorem dumpPair_eq (k s : String) (hk : alnumChars k.data = true)
    (hs : alnumChars s.data = true) :
    dumpString true k ++ ':' :: ' ' :: dumpsCompact true (.str s)
      = pairR k.data s.data := by
  rw [show dumpsCompact true (.str s) = dumpString true s from rfl,
      dumpString_alnum k hk, dumpString_alnum s hs]
  simp [pairR]

theorem objBody_nil : objBody [] = [] := rfl

theorem objBody_singleton (k : String) (v : PyVal) :
    objBody [(k, v)] = dumpString true k ++ ':' :: ' ' :: dumpsCompact true v := by
  simp [objBody, List.intercalate, dumpsCompactPairs]

theorem objBody_cons₂ (k : String) (v : PyVal) (q : String × PyVal)
    (tl : List (String × PyVal)) :
    objBody ((k, v) :: q :: tl) =
      (dumpString true k ++ ':' :: ' ' :: dumpsCompact true v) ++
        ',' :: ' ' :: objBody (q :: tl) := by
  obtain ⟨l, w⟩ := q
  simp [objBody, List.intercalate, dumpsCompactPairs, List.intersperse_cons_cons]

/-- Content safety of the pairs of a flat object (unpacked form of
`safeFlatObjB`). -/
def safeContent (prs : List (String × PyVal)) : Prop :=
  ∀ p ∈ prs, alnumChars p.1.data = true ∧
    ∃ s, p.2 = PyVal.str s ∧ alnumChars s.data = true

theorem safeFlatObjB_content (prs : List (String × PyVal))
    (h : safeFlatObjB (.obj prs) = true) :
    ((prs.map Prod.fst).Nodup) ∧ safeContent prs := by
  simp only [safeFlatObjB, Bool.and_eq_true, decide_eq_true_eq,
    List.all_eq_true] at h
  refine ⟨h.1, fun p hp => ?_⟩
  have := h.2 p hp
  simp only [Bool.and_eq_true] at this
  refine ⟨this.1, ?_⟩
  cases hv : p.2 with
  | str s => exact ⟨s, rfl, by rw [hv] at this; exact this.2⟩
  | null => rw [hv] at this; simp at this
  | bool b => rw [hv] at this; simp at this
  | num n => rw [hv] at this; simp at this
  | arr l => rw [hv] at this; simp at this
  | obj m => rw [hv] at this; simp at this

/-- Character class of the rendered body. -/
def bodyChar (c : Char) : Bool :=
  alnumChar c || (c = '"') || (c = ':') || (c = ' ') || (c = ',')

theorem pairR_chars (k v : List Char) (hk : alnumChars k = true)
    (hv : alnumChars v = true) : ∀ c ∈ pairR k v, bodyChar c = true := by
  intro c hc
  simp only [alnumChars, List.all_eq_true] at hk hv
  have hcase : c = '"' ∨ c = ':' ∨ c = ' ' ∨ c ∈ k ∨ c ∈ v := by
    simp only [pairR, List.mem_cons, List.mem_append, List.mem_singleton] at hc
    tauto
  rcases hcase with rfl | rfl | rfl | hck | hcv
  · decide
  · decide
  · decide
  · simp [bodyChar, hk c hck]
  · simp [bodyChar, hv c hcv]

theorem objBody_chars (prs : List (String × PyVal)) (h : safeContent prs) :
    ∀ c ∈ objBody prs, bodyChar c = true := by
  induction prs with
  | nil => intro c hc; simp [objBody_nil] at hc
  | cons p tl ih =>
    obtain ⟨k, v⟩ := p
    obtain ⟨hk0, s, hvs0, hs⟩ := h (k, v) (by simp)
    have hk : alnumChars k.data = true := hk0
    have hvs : v = PyVal.str s := hvs0
    cases tl with
    | nil =>
      intro c hc
      rw [objBody_singleton, hvs, dumpPair_eq k s hk hs] at hc
      exact pairR_chars k.data s.data hk hs c hc
    | cons q tl2 =>
      intro c hc
      rw [objBody_cons₂, hvs, dumpPair_eq k s hk hs] at hc
      simp only [List.mem_append, List.mem_cons] at hc
      rcases hc with hc | hc
      · exact pairR_chars k.data s.data hk hs c hc
      rcases hc with rfl | hc
      · decide
      rcases hc with rfl | hc
      · decide
      · exact ih (fun r hr => h r (by simp [hr])) c hc

/-- A non-empty safe body starts with a double quote. -/
theorem objBody_head (p : String × PyVal) (tl : List (String × PyVal))
    (h : safeContent (p :: tl)) :
    ∃ z, objBody (p :: tl) = '"' :: z := by
  obtain ⟨k, v⟩ := p
  obtain ⟨hk0, s, hvs0, hs⟩ := h (k, v) (by simp)
  have hk : alnumChars k.data = true := hk0
  have hvs : v = PyVal.str s := hvs0
  cases tl with
  | nil =>
    refine ⟨k.data ++ '"' :: ':' :: ' ' :: '"' :: s.data ++ ['"'], ?_⟩
    rw [objBody_singleton, hvs, dumpPair_eq k s hk hs]
    rfl
  | cons q tl2 =>
    refine ⟨k.data ++ '"' :: ':' :: ' ' :: '"' :: s.data ++ ['"'] ++
      ',' :: ' ' :: objBody (q :: tl2), ?_⟩
    rw [objBody_cons₂, hvs, dumpPair_eq k s hk hs]
    simp [pairR]

theorem alnum_not_pyws (c : Char) (h : alnumChar c = true) : isPyWs c = false := by
  simp only [isPyWs, decide_eq_false_iff_not]
  push_neg
  exact ⟨alnum_ne c h ' ' (by decide), alnum_ne c h '\t' (by decide),
    alnum_ne c h '\n' (by decide), alnum_ne c h '\r' (by decide),
    alnum_ne c h '\x0b' (by decide), alnum_ne c h '\x0c' (by decide)⟩

theorem alnum_not_nrt (c : Char) (h : alnumChar c = true) : isNRT c = false := by
  simp only [isNRT, decide_eq_false_iff_not]
  push_neg
  exact ⟨alnum_ne c h '\n' (by decide), alnum_ne c h '\r' (by decide),
    alnum_ne c h '\t' (by decide)⟩

theorem bodyChar_cases (c : Char) (h : bodyChar c = true) :
    alnumChar c = true ∨ c = '"' ∨ c = ':' ∨ c = ' ' ∨ c = ',' := by
  simp only [bodyChar, Bool.or_eq_true, decide_eq_true_eq] at h
  tauto

theorem bodyChar_not_nrt (c : Char) (h : bodyChar c = true) : isNRT c = false := by
  rcases bodyChar_cases c h with ha | rfl | rfl | rfl | rfl
  · exact alnum_not_nrt c ha
  all_goals decide

theorem bodyChar_ne_newline (c : Char) (h : bodyChar c = true) : c ≠ '\n' := by
  rcases bodyChar_cases c h with ha | rfl | rfl | rfl | rfl
  · exact alnum_ne c ha '\n' (by decide)
  all_goals decide

theorem bodyChar_ne_tick (c : Char) (h : bodyChar c = true) : c ≠ '`' := by
  rcases bodyChar_cases c h with ha | rfl | rfl | rfl | rfl
  · exact alnum_ne c ha '`' (by decide)
  all_goals decide

theorem bodyChar_ne_braces (c : Char) (h : bodyChar c = true) :
    c ≠ '{' ∧ c ≠ '}' := by
  rcases bodyChar_cases c h with ha | rfl | rfl | rfl | rfl
  · exact ⟨alnum_ne c ha '{' (by decide), alnum_ne c ha '}' (by decide)⟩
  all_goals decide

theorem bodyChar_not_smart (c : Char) (h : bodyChar c = true) :
    c ≠ '“' ∧ c ≠ '”' := by
  rcases bodyChar_cases c h with ha | rfl | rfl | rfl | rfl
  · exact ⟨alnum_ne c ha '“' (by decide), alnum_ne c ha '”' (by decide)⟩
  all_goals decide

/-- No trigger characters at all: `collapseRuns` is the identity. -/
theorem collapseRuns_id_of_no_trigger (p : Char → Bool) (rep : Char) :
    ∀ s : List Char, (∀ c ∈ s, p c = false) → ∀ b, collapseRuns p rep s b = s := by
  intro s
  induction s with
  | nil => intro _ b; rfl
  | cons c t ih =>
    intro h b
    rw [collapseRuns_head p rep c t b (h c (by simp)),
        ih (fun d hd => h d (by simp [hd])) false]

/-- Whitespace discipline of the rendered document: every whitespace
character is a single `' '` not followed by more whitespace. -/
def wsOk : List Char → Bool
  | [] => true
  | c :: t =>
    (if isPyWs c = true then
       (c = ' ') && (match t with | d :: _ => !(isPyWs d) | [] => true)
     else true) && wsOk t

theorem wsOk_cons_nonws {c : Char} (t : List Char) (hc : isPyWs c = false) :
    wsOk (c :: t) = wsOk t := by
  simp [wsOk, hc]

theorem wsOk_space_quote (d : Char) (t : List Char) (hd : isPyWs d = false) :
    wsOk (' ' :: d :: t) = wsOk (d :: t) := by
  have hstep : wsOk (' ' :: d :: t)
      = (((decide (' ' = ' ')) && !(isPyWs d)) && wsOk (d :: t)) := by
    rw [wsOk, if_pos (by decide)]
  rw [hstep, hd]
  simp

theorem wsOk_append_nonws :
    ∀ (xs ys : List Char), (∀ c ∈ xs, isPyWs c = false) →
      wsOk (xs ++ ys) = wsOk ys := by
  intro xs
  induction xs with
  | nil => intro ys _; rfl
  | cons c t ih =>
    intro ys h
    rw [List.cons_append, wsOk_cons_nonws _ (h c (by simp)),
        ih ys (fun d hd => h d (by simp [hd]))]

theorem collapseRuns_state_eq (t : List Char)
    (h : ∀ d, t.head? = some d → isPyWs d = false) :
    collapseRuns isPyWs ' ' t true = collapseRuns isPyWs ' ' t false := by
  cases t with
  | nil => rfl
  | cons d t' =>
    have hd := h d rfl
    rw [collapseRuns_head _ _ d t' true hd, collapseRuns_head _ _ d t' false hd]

/-- On whitespace-disciplined input, whitespace collapsing is the identity. -/
theorem wsOk_collapse_id : (s : List Char) → wsOk s = true →
    collapseRuns isPyWs ' ' s false = s
  | [], _ => rfl
  | c :: t, h => by
    by_cases hc : isPyWs c = true
    · simp only [wsOk, hc, if_true, Bool.and_eq_true, decide_eq_true_eq] at h
      obtain ⟨⟨hsp, hnext⟩, ht⟩ := h
      subst hsp
      rw [show collapseRuns isPyWs ' ' (' ' :: t) false
          = ' ' :: collapseRuns isPyWs ' ' t true from by
        rw [collapseRuns, if_pos (by decide), if_neg (by simp)]]
      rw [collapseRuns_state_eq t ?hn, wsOk_collapse_id t ht]
      case hn =>
        intro d hd
        cases t with
        | nil => simp at hd
        | cons e t2 =>
          simp only [List.head?_cons, Option.some.injEq] at hd
          subst hd
          simpa using hnext
    · have hc2 : isPyWs c = false := by simpa using hc
      rw [wsOk_cons_nonws t hc2] at h
      rw [collapseRuns_head _ _ c t false hc2, wsOk_collapse_id t h]

/-- Comma discipline of the rendered document: every comma is followed by
`' '` then `'"'` (never by whitespace then a closing bracket). -/
def commaOk : List Char → Bool
  | [] => true
  | c :: t =>
    (if c = ',' then
       (match t with | d :: e :: _ => (d = ' ') && (e = '"') | _ => false)
     else true) && commaOk t

theorem commaOk_cons_noncomma {c : Char} (t : List Char) (hc : c ≠ ',') :
    commaOk (c :: t) = commaOk t := by
  simp [commaOk, hc]

theorem commaOk_append_noncomma :
    ∀ (xs ys : List Char), (∀ c ∈ xs, c ≠ ',') →
      commaOk (xs ++ ys) = commaOk ys := by
  intro xs
  induction xs with
  | nil => intro ys _; rfl
  | cons c t ih =>
    intro ys h
    rw [List.cons_append, commaOk_cons_noncomma _ (h c (by simp)),
        ih ys (fun d hd => h d (by simp [hd]))]

/-- On comma-disciplined input, the trailing-comma repair is the identity. -/
theorem commaOk_clean_id : (s : List Char) → commaOk s = true →
    cleanTrailingAux [] s = s
  | [], _ => rfl
  | c :: t, h => by
    by_cases hc : c = ','
    · subst hc
      rcases t with _ | ⟨d, t1⟩
      · simp [commaOk] at h
      rcases t1 with _ | ⟨e, t2⟩
      · simp [commaOk] at h
      have heq : commaOk (',' :: d :: e :: t2)
          = ((decide (d = ' ') && decide (e = '"')) && commaOk (d :: e :: t2)) := by
        rw [commaOk, if_pos rfl]
      rw [heq, Bool.and_eq_true, Bool.and_eq_true,
          decide_eq_true_eq, decide_eq_true_eq] at h
      obtain ⟨⟨hd, he⟩, ht⟩ := h
      subst hd
      subst he
      have ht2 : commaOk t2 = true := by
        rw [commaOk_cons_noncomma _ (by decide),
            commaOk_cons_noncomma _ (by decide)] at ht
        exact ht
      rw [show cleanTrailingAux [] (',' :: ' ' :: '"' :: t2)
          = ',' :: ' ' :: '"' :: cleanTrailingAux [] t2 from by
        rw [cleanTrailingAux, if_pos rfl, if_pos rfl,
            cleanTrailingAux, if_neg (by simp), if_pos (by decide),
            cleanTrailingAux, if_neg (by simp), if_neg (by decide),
            if_neg (by decide), if_neg (by decide)]
        rfl]
      rw [commaOk_clean_id t2 ht2]
    · rw [cleanTrailingAux_head c t hc]
      rw [commaOk_cons_noncomma t hc] at h
      rw [commaOk_clean_id t h]

theorem smartQuotes_id (s : List Char) (h : ∀ c ∈ s, c ≠ '“' ∧ c ≠ '”') :
    smartQuotes s = s := by
  unfold smartQuotes
  induction s with
  | nil => rfl
  | cons c t ih =>
    obtain ⟨h1, h2⟩ := h c (by simp)
    simp only [List.map_cons]
    rw [if_neg (by tauto), ih (fun d hd => h d (by simp [hd]))]

theorem fix_missing_braces_id (s : List Char)
    (h : ¬ countChar '{' s > countChar '}' s) : fix_missing_braces s = s := by
  unfold fix_missing_braces
  rw [if_neg h]

theorem alnum_list_not_pyws (l : List Char) (h : alnumChars l = true) :
    ∀ c ∈ l, isPyWs c = false := fun c hc =>
  alnum_not_pyws c (List.all_eq_true.mp h c hc)

theorem alnum_list_noncomma (l : List Char) (h : alnumChars l = true) :
    ∀ c ∈ l, c ≠ ',' := fun c hc =>
  alnum_ne c (List.all_eq_true.mp h c hc) ',' (by decide)

/-- The rendered body plus closing brace is whitespace-disciplined. -/
theorem wsOk_body : ∀ (prs : List (String × PyVal)), safeContent prs →
    wsOk (objBody prs ++ ['}']) = true := by
  intro prs
  induction prs with
  | nil => intro _; rw [objBody_nil]; decide
  | cons p tl ih =>
    obtain ⟨k, v⟩ := p
    intro h
    obtain ⟨hk0, s, hvs0, hs⟩ := h (k, v) (by simp)
    have hk : alnumChars k.data = true := hk0
    have hvs : v = PyVal.str s := hvs0
    cases tl with
    | nil =>
      rw [objBody_singleton, hvs, dumpPair_eq k s hk hs]
      simp only [pairR, List.cons_append, List.append_assoc, List.nil_append]
      rw [wsOk_cons_nonws _ (by decide),
          wsOk_append_nonws k.data _ (alnum_list_not_pyws k.data hk),
          wsOk_cons_nonws _ (by decide), wsOk_cons_nonws _ (by decide),
          wsOk_space_quote '"' _ (by decide), wsOk_cons_nonws _ (by decide),
          wsOk_append_nonws s.data _ (alnum_list_not_pyws s.data hs)]
      decide
    | cons q tl2 =>
      have hsafe2 : safeContent (q :: tl2) := fun r hr => h r (by simp [hr])
      obtain ⟨z, hz⟩ := objBody_head q tl2 hsafe2
      have hih := ih hsafe2
      rw [hz, List.cons_append, wsOk_cons_nonws _ (by decide)] at hih
      rw [objBody_cons₂, hvs, dumpPair_eq k s hk hs, hz]
      simp only [pairR, List.cons_append, List.append_assoc, List.nil_append]
      rw [wsOk_cons_nonws _ (by decide),
          wsOk_append_nonws k.data _ (alnum_list_not_pyws k.data hk),
          wsOk_cons_nonws _ (by decide), wsOk_cons_nonws _ (by decide),
          wsOk_space_quote '"' _ (by decide), wsOk_cons_nonws _ (by decide),
          wsOk_append_nonws s.data _ (alnum_list_not_pyws s.data hs),
          wsOk_cons_nonws _ (by decide), wsOk_cons_nonws _ (by decide),
          wsOk_space_quote '"' _ (by decide), wsOk_cons_nonws _ (by decide)]
      exact hih

theorem commaOk_csq (t : List Char) :
    commaOk (',' :: ' ' :: '"' :: t) = commaOk t := by
  have heq : commaOk (',' :: ' ' :: '"' :: t)
      = ((decide ((' ' : Char) = ' ') && decide (('"' : Char) = '"')) &&
          commaOk (' ' :: '"' :: t)) := by
    rw [commaOk, if_pos rfl]
  rw [heq, commaOk_cons_noncomma _ (by decide),
      commaOk_cons_noncomma _ (by decide)]
  simp

/-- The rendered body plus closing brace is comma-disciplined. -/
theorem commaOk_body : ∀ (prs : List (String × PyVal)), safeContent prs →
    commaOk (objBody prs ++ ['}']) = true := by
  intro prs
  induction prs with
  | nil => intro _; rw [objBody_nil]; decide
  | cons p tl ih =>
    obtain ⟨k, v⟩ := p
    intro h
    obtain ⟨hk0, s, hvs0, hs⟩ := h (k, v) (by simp)
    have hk : alnumChars k.data = true := hk0
    have hvs : v = PyVal.str s := hvs0
    cases tl with
    | nil =>
      rw [objBody_singleton, hvs, dumpPair_eq k s hk hs]
      simp only [pairR, List.cons_append, List.append_assoc, List.nil_append]
      rw [commaOk_cons_noncomma _ (by decide),
          commaOk_append_noncomma k.data _ (alnum_list_noncomma k.data hk),
          commaOk_cons_noncomma _ (by decide), commaOk_cons_noncomma _ (by decide),
          commaOk_cons_noncomma _ (by decide), commaOk_cons_noncomma _ (by decide),
          commaOk_append_noncomma s.data _ (alnum_list_noncomma s.data hs)]
      decide
    | cons q tl2 =>
      have hsafe2 : safeContent (q :: tl2) := fun r hr => h r (by simp [hr])
      obtain ⟨z, hz⟩ := objBody_head q tl2 hsafe2
      have hih := ih hsafe2
      rw [hz, List.cons_append, commaOk_cons_noncomma _ (by decide)] at hih
      rw [objBody_cons₂, hvs, dumpPair_eq k s hk hs, hz]
      simp only [pairR, List.cons_append, List.append_assoc, List.nil_append]
      rw [commaOk_cons_noncomma _ (by decide),
          commaOk_append_noncomma k.data _ (alnum_list_noncomma k.data hk),
          commaOk_cons_noncomma _ (by decide), commaOk_cons_noncomma _ (by decide),
          commaOk_cons_noncomma _ (by decide), commaOk_cons_noncomma _ (by decide),
          commaOk_append_noncomma s.data _ (alnum_list_noncomma s.data hs),
          commaOk_cons_noncomma _ (by decide), commaOk_csq]
      exact hih

/-- The braces of the rendered document balance exactly. -/
theorem braces_balanced (prs : List (String × PyVal)) (h : safeContent prs) :
    countChar '{' ('{' :: objBody prs ++ ['}'])
      = countChar '}' ('{' :: objBody prs ++ ['}']) := by
  have hb : ∀ c ∈ objBody prs, c ≠ '{' ∧ c ≠ '}' := fun c hc =>
    bodyChar_ne_braces c (objBody_chars prs h c hc)
  have h1 : List.countP (fun x => decide (x = '{')) (objBody prs) = 0 :=
    List.countP_eq_zero.mpr (fun c hc => by simp [(hb c hc).1])
  have h2 : List.countP (fun x => decide (x = '}')) (objBody prs) = 0 :=
    List.countP_eq_zero.mpr (fun c hc => by simp [(hb c hc).2])
  unfold countChar
  simp [List.countP_cons, List.countP_append, h1, h2]

/-- The full repair pipeline is the identity on the rendered document. -/
theorem cleanCandidate_id_safe (prs : List (String × PyVal))
    (h : safeContent prs) :
    cleanCandidate false ('{' :: objBody prs ++ ['}'])
      = '{' :: objBody prs ++ ['}'] := by
  have hchars := objBody_chars prs h
  have hmem : ∀ (P : Char → Prop), P '{' → P '}' →
      (∀ c, bodyChar c = true → P c) →
      ∀ c ∈ ('{' :: objBody prs ++ ['}']), P c := by
    intro P hob hcb hbody c hc
    rcases List.mem_cons.mp hc with rfl | hc
    · exact hob
    rcases List.mem_append.mp hc with hc | hc
    · exact hbody c (hchars c hc)
    · simp only [List.mem_singleton] at hc
      subst hc
      exact hcb
  unfold cleanCandidate
  rw [if_neg (by simp)]
  rw [show collapseNRT ('{' :: objBody prs ++ ['}'])
      = '{' :: objBody prs ++ ['}'] from
    collapseRuns_id_of_no_trigger isNRT ' ' _
      (hmem (fun c => isNRT c = false) (by decide) (by decide)
        (fun c hc => bodyChar_not_nrt c hc)) false]
  rw [show collapseWs ('{' :: objBody prs ++ ['}'])
      = '{' :: objBody prs ++ ['}'] from
    wsOk_collapse_id _ (by
      rw [List.cons_append, wsOk_cons_nonws _ (by decide)]
      exact wsOk_body prs h)]
  rw [smartQuotes_id _
    (hmem (fun c => c ≠ '“' ∧ c ≠ '”') (by decide) (by decide)
      (fun c hc => bodyChar_not_smart c hc))]
  rw [fixCommas_id_of_no_newline _
    (hmem (fun c => c ≠ '\n') (by decide) (by decide)
      (fun c hc => bodyChar_ne_newline c hc))]
  rw [show clean_trailing_commas ('{' :: objBody prs ++ ['}'])
      = cleanTrailingAux [] ('{' :: objBody prs ++ ['}']) from rfl]
  rw [commaOk_clean_id _ (by
    rw [List.cons_append, commaOk_cons_noncomma _ (by decide)]
    exact commaOk_body prs h)]
  exact fix_missing_braces_id _ (by rw [braces_balanced prs h]; omega)

/-- The fence matcher finds nothing in backtick-free text. -/
theorem fencedMatchAt_none (s : List Char) (h : ∀ c ∈ s, c ≠ '`') :
    fencedMatchAt s = none := by
  unfold fencedMatchAt
  rw [show litTail ['`', '`', '`'] s = none from by
    unfold litTail
    rw [if_neg ?hp]
    case hp =>
      cases s with
      | nil => decide
      | cons c t =>
        simp only [List.isPrefixOf, Bool.and_eq_true, beq_iff_eq]
        intro hcon
        exact absurd hcon.1.symm (h c (by simp))]

theorem fencedFindAux_none :
    ∀ (fuel : Nat) (s : List Char), (∀ c ∈ s, c ≠ '`') →
      fencedFindAux fuel s = [] := by
  intro fuel
  induction fuel with
  | zero => intro s _; rfl
  | succ n ih =>
    intro s h
    simp only [fencedFindAux]
    rw [fencedMatchAt_none s h]
    cases s with
    | nil => rfl
    | cons c t => exact ih t (fun d hd => h d (by simp [hd]))

/-- The brace scan on a document with braces only at the ends finds exactly
the whole document. -/
theorem braceScanAux_mid :
    ∀ (mid : List Char), (∀ c ∈ mid, c ≠ '{' ∧ c ≠ '}') →
      ∀ acc, braceScanAux (mid ++ ['}']) 1 (some acc)
        = [acc.reverse ++ mid ++ ['}']] := by
  intro mid
  induction mid with
  | nil =>
    intro _ acc
    simp only [List.nil_append, braceScanAux]
    rw [if_neg (by decide), if_pos (by decide),
        if_pos (by constructor <;> simp)]
    simp [braceScanAux]
  | cons m mid' ih =>
    intro h acc
    obtain ⟨hm1, hm2⟩ := h m (by simp)
    simp only [List.cons_append, braceScanAux, if_neg hm1, if_neg hm2]
    have hres := ih (fun d hd => h d (by simp [hd])) (m :: acc)
    exact hres.trans (by simp)

theorem braceScanBlocks_whole (body : List Char)
    (h : ∀ c ∈ body, c ≠ '{' ∧ c ≠ '}') :
    braceScanBlocks ('{' :: body ++ ['}']) = ['{' :: body ++ ['}']] := by
  unfold braceScanBlocks
  rw [show braceScanAux ('{' :: body ++ ['}']) 0 none
      = braceScanAux (body ++ ['}']) 1 (some ['{']) from by
    rw [braceScanAux.eq_def]
    norm_num]
  rw [braceScanAux_mid body h ['{']]
  simp

/-- `C10`: `extract_json_from_response` always returns a JSON object (never
a list): every candidate block in all three tiers is brace-delimited, so
every parsed block is an object, merged objects are objects, the
list-returning branch is unreachable, and the sentinel is an object.
Consequently `parsed.get("classification")` in `Classifier.predict` is
applied to a dict. -/
theorem C10_extract_always_object (s : String) :
    (extract_json_from_response s).isObj = true := by
  unfold extract_json_from_response
  have hall := tier12Blocks_obj s.data
  cases h : tier12Blocks s.data with
  | nil =>
    unfold tier3Fallback
    by_cases hcond : (stripChars s.data).head? ≠ some '{' ∧ ':' ∈ stripChars s.data
    · rw [if_pos hcond]
      cases hp : pyJsonLoads (cleanCandidate false ('{' :: stripChars s.data ++ ['}'])) with
      | none => rfl
      | some v =>
        exact pyJsonLoads_obj_of_head _ v
          (by
            obtain ⟨u, hu⟩ := cleanCandidate_head false
              ('{' :: stripChars s.data ++ ['}']) rfl
            rw [hu]; rfl) hp
    · rw [if_neg hcond]; rfl
  | cons b bs =>
    cases bs with
    | nil => exact hall b (by rw [h]; simp)
    | cons b2 tl =>
      have hab : (b :: b2 :: tl).all PyVal.isObj = true := by
        rw [List.all_eq_true]
        intro x hx
        exact hall x (by rw [h]; exact hx)
      have hred : (match b :: b2 :: tl with
          | [b] => b
          | [] => tier3Fallback s.data
          | bs => if bs.all PyVal.isObj = true then mergeObjs bs else PyVal.arr bs)
          = if (b :: b2 :: tl).all PyVal.isObj = true then mergeObjs (b :: b2 :: tl)
            else PyVal.arr (b :: b2 :: tl) := rfl
      rw [hred, if_pos hab]
      rfl

/-! ### Parsing the rendered document back (`json.loads ∘ json.dumps`) -/

/-- `parseStrBody` on a quote/backslash-free body followed by the closing
quote returns the body verbatim. -/
theorem parseStrBody_safe :
    ∀ (w : List Char), (∀ c ∈ w, c ≠ '"' ∧ c ≠ '\\') →
      ∀ r, parseStrBody (w ++ '"' :: r) = some (w, r) := by
  intro w
  induction w with
  | nil =>
    intro _ r
    rw [List.nil_append, parseStrBody.eq_def]
    simp
  | cons c t ih =>
    intro h r
    obtain ⟨h1, h2⟩ := h c (by simp)
    rw [List.cons_append, parseStrBody.eq_def]
    simp only [if_neg h1, if_neg h2]
    rw [ih (fun d hd => h d (by simp [hd])) r]
    rfl

theorem alnum_no_quote_bs (l : List Char) (h : alnumChars l = true) :
    ∀ c ∈ l, c ≠ '"' ∧ c ≠ '\\' := by
  intro c hc
  simp only [alnumChars, List.all_eq_true] at h
  exact ⟨alnum_ne c (h c hc) '"' (by decide), alnum_ne c (h c hc) '\\' (by decide)⟩

/-- `parseValue` on `space, quote, body, quote, tail` yields the string
literal and the tail. -/
theorem parseValue_strlit (f : Nat) (w tail : List Char)
    (hw : ∀ c ∈ w, c ≠ '"' ∧ c ≠ '\\') :
    parseValue (f + 1) (' ' :: '"' :: (w ++ '"' :: tail))
      = some (.str (String.mk w), tail) := by
  have hskip : skipWs (' ' :: '"' :: (w ++ '"' :: tail))
      = '"' :: (w ++ '"' :: tail) := by
    simp only [skipWs, List.dropWhile_cons]
    rw [if_pos (by decide), if_neg (by decide)]
  simp only [parseValue, hskip]
  rw [parseStrBody_safe w hw tail]
  rfl

/-- `d[key] = value` appends when the key is fresh. -/
theorem insertPair_not_mem (pairs : List (String × PyVal)) (k : String)
    (v : PyVal) (h : ∀ p ∈ pairs, p.1 ≠ k) :
    insertPair pairs k v = pairs ++ [(k, v)] := by
  unfold insertPair
  rw [if_neg (by
    simp only [List.any_eq_true, decide_eq_true_eq]
    push_neg
    intro p hp
    exact h p hp)]

/-- Folding `insertPair` over pairs with distinct fresh keys concatenates. -/
theorem foldl_insertPair_eq :
    ∀ (prs acc : List (String × PyVal)), (prs.map Prod.fst).Nodup →
      (∀ p ∈ acc, ∀ q ∈ prs, p.1 ≠ q.1) →
      prs.foldl (fun a p => insertPair a p.1 p.2) acc = acc ++ prs := by
  intro prs
  induction prs with
  | nil => intro acc _ _; simp
  | cons p tl ih =>
    intro acc hnd hdisj
    simp only [List.foldl_cons]
    rw [insertPair_not_mem acc p.1 p.2 (fun q hq => hdisj q hq p (by simp))]
    have hnd2 : (tl.map Prod.fst).Nodup := by
      rw [List.map_cons, List.nodup_cons] at hnd
      exact hnd.2
    have hhead : p.1 ∉ tl.map Prod.fst := by
      rw [List.map_cons, List.nodup_cons] at hnd
      exact hnd.1
    have hdisj2 : ∀ q ∈ acc ++ [(p.1, p.2)], ∀ r ∈ tl, q.1 ≠ r.1 := by
      intro q hq r hr heq
      rcases List.mem_append.mp hq with hq | hq
      · exact hdisj q hq r (by simp [hr]) heq
      · have hq1 : q.1 = p.1 := by
          simp only [List.mem_singleton] at hq
          rw [hq]
        have : p.1 ∈ tl.map Prod.fst := by
          rw [show p.1 = r.1 from by rw [← hq1, heq]]
          exact List.mem_map_of_mem Prod.fst hr
        exact hhead this
    rw [ih (acc ++ [(p.1, p.2)]) hnd2 hdisj2]
    simp

/-- The rendered body is at least as long as the pair list. -/
theorem objBody_length :
    ∀ (prs : List (String × PyVal)), prs.length ≤ (objBody prs).length := by
  intro prs
  induction prs with
  | nil => simp [objBody_nil]
  | cons p tl ih =>
    obtain ⟨k, v⟩ := p
    cases tl with
    | nil =>
      rw [objBody_singleton]
      simp only [List.length_cons, List.length_append, List.length_nil]
      omega
    | cons q tl2 =>
      rw [objBody_cons₂]
      simp only [List.length_cons, List.length_append] at ih ⊢
      omega

/-- `parseMembers` consumes the rendered body of a safe flat object and
folds its pairs into the accumulator. -/
theorem parseMembers_render :
    ∀ (prs : List (String × PyVal)) (m : Nat) (acc : List (String × PyVal)),
      safeContent prs → prs ≠ [] → prs.length + 1 ≤ m →
      parseMembers m (objBody prs ++ ['}']) acc
        = some (prs.foldl (fun a p => insertPair a p.1 p.2) acc, []) := by
  intro prs
  induction prs with
  | nil => intro m acc _ hne _; exact absurd rfl hne
  | cons p tl ih =>
    intro m acc hsafe _ hm
    obtain ⟨k, v⟩ := p
    obtain ⟨hk0, s, hvs0, hs⟩ := hsafe (k, v) (by simp)
    have hk : alnumChars k.data = true := hk0
    have hvs : v = PyVal.str s := hvs0
    obtain ⟨m2, rfl⟩ : ∃ m2, m = m2 + 1 + 1 := by
      refine ⟨m - 2, ?_⟩
      simp only [List.length_cons] at hm
      omega
    have hks : String.mk k.data = k := rfl
    have hss : String.mk s.data = s := rfl
    cases tl with
    | nil =>
      have hshape : objBody [(k, v)] ++ ['}']
          = '"' :: (k.data ++ '"' :: ':' :: ' ' :: '"' ::
              (s.data ++ '"' :: ['}'])) := by
        rw [objBody_singleton, hvs, dumpPair_eq k s hk hs]
        simp [pairR]
      rw [hshape]
      have h1 : parseStrBody (k.data ++ '"' :: ':' :: ' ' :: '"' ::
            (s.data ++ '"' :: ['}']))
          = some (k.data, ':' :: ' ' :: '"' :: (s.data ++ '"' :: ['}'])) :=
        parseStrBody_safe k.data (alnum_no_quote_bs k.data hk) _
      have h2 : skipWs (':' :: ' ' :: '"' :: (s.data ++ '"' :: ['}']))
          = ':' :: ' ' :: '"' :: (s.data ++ '"' :: ['}']) :=
        skipWs_cons_nonws ':' _ (by decide)
      have h3 : parseValue (m2 + 1) (' ' :: '"' :: (s.data ++ '"' :: ['}']))
          = some (.str (String.mk s.data), ['}']) :=
        parseValue_strlit m2 s.data ['}'] (alnum_no_quote_bs s.data hs)
      have h4 : skipWs ['}'] = ['}'] := skipWs_cons_nonws '}' [] (by decide)
      rw [parseMembers.eq_def]
      simp only [h1, h2, h3, hks, hss, h4, List.foldl_cons, List.foldl_nil]
      rw [hvs]
    | cons q tl2 =>
      have hsafe2 : safeContent (q :: tl2) := fun r hr => hsafe r (by simp [hr])
      have hshape : objBody ((k, v) :: q :: tl2) ++ ['}']
          = '"' :: (k.data ++ '"' :: ':' :: ' ' :: '"' ::
              (s.data ++ '"' :: ',' :: ' ' :: (objBody (q :: tl2) ++ ['}']))) := by
        rw [objBody_cons₂, hvs, dumpPair_eq k s hk hs]
        simp [pairR]
      rw [hshape]
      have h1 : parseStrBody (k.data ++ '"' :: ':' :: ' ' :: '"' ::
            (s.data ++ '"' :: ',' :: ' ' :: (objBody (q :: tl2) ++ ['}'])))
          = some (k.data, ':' :: ' ' :: '"' ::
              (s.data ++ '"' :: ',' :: ' ' :: (objBody (q :: tl2) ++ ['}']))) :=
        parseStrBody_safe k.data (alnum_no_quote_bs k.data hk) _
      have h2 : skipWs (':' :: ' ' :: '"' ::
            (s.data ++ '"' :: ',' :: ' ' :: (objBody (q :: tl2) ++ ['}'])))
          = ':' :: ' ' :: '"' ::
              (s.data ++ '"' :: ',' :: ' ' :: (objBody (q :: tl2) ++ ['}'])) :=
        skipWs_cons_nonws ':' _ (by decide)
      have h3 : parseValue (m2 + 1) (' ' :: '"' ::
            (s.data ++ '"' :: ',' :: ' ' :: (objBody (q :: tl2) ++ ['}'])))
          = some (.str (String.mk s.data),
              ',' :: ' ' :: (objBody (q :: tl2) ++ ['}'])) :=
        parseValue_strlit m2 s.data (',' :: ' ' :: (objBody (q :: tl2) ++ ['}']))
          (alnum_no_quote_bs s.data hs)
      have h4 : skipWs (',' :: ' ' :: (objBody (q :: tl2) ++ ['}']))
          = ',' :: ' ' :: (objBody (q :: tl2) ++ ['}']) :=
        skipWs_cons_nonws ',' _ (by decide)
      have h5 : skipWs (' ' :: (objBody (q :: tl2) ++ ['}']))
          = objBody (q :: tl2) ++ ['}'] := by
        obtain ⟨z, hz⟩ := objBody_head q tl2 hsafe2
        rw [hz, List.cons_append]
        simp only [skipWs, List.dropWhile_cons]
        rw [if_pos (by decide), if_neg (by decide)]
      have h6 : parseMembers (m2 + 1) (objBody (q :: tl2) ++ ['}'])
            (insertPair acc k (PyVal.str s))
          = some ((q :: tl2).foldl (fun a p => insertPair a p.1 p.2)
              (insertPair acc k (PyVal.str s)), []) :=
        ih (m2 + 1) (insertPair acc k (PyVal.str s)) hsafe2 (by simp)
          (by simp only [List.length_cons] at hm ⊢; omega)
      rw [parseMembers.eq_def]
      simp only [h1, h2, h3, hks, hss, h4, h5, h6, List.foldl_cons]
      rw [hvs]

/-- `json.loads` round-trips the compact rendering of a safe flat object. -/
theorem pyJsonLoads_render (prs : List (String × PyVal))
    (hnd : (prs.map Prod.fst).Nodup) (h : safeContent prs) :
    pyJsonLoads ('{' :: objBody prs ++ ['}']) = some (.obj prs) := by
  cases prs with
  | nil => decide
  | cons p tl =>
    obtain ⟨z, hz⟩ := objBody_head p tl h
    unfold pyJsonLoads
    have hlen : ('{' :: objBody (p :: tl) ++ ['}']).length
        = (objBody (p :: tl)).length + 2 := by
      simp
    rw [hlen]
    have hpm := parseMembers_render (p :: tl) ((objBody (p :: tl)).length + 2) []
      h (by simp) (by have := objBody_length (p :: tl); simp only [List.length_cons] at this ⊢; omega)
    have hskA : skipWs ('{' :: (objBody (p :: tl) ++ ['}']))
        = '{' :: (objBody (p :: tl) ++ ['}']) :=
      skipWs_cons_nonws '{' _ (by decide)
    have hskB : skipWs (objBody (p :: tl) ++ ['}'])
        = objBody (p :: tl) ++ ['}'] := by
      rw [hz, List.cons_append]
      exact skipWs_cons_nonws '"' _ (by decide)
    have hv : parseValue ((objBody (p :: tl)).length + 2 + 1)
        ('{' :: objBody (p :: tl) ++ ['}'])
        = some (.obj ((p :: tl).foldl (fun a p => insertPair a p.1 p.2) []), []) := by
      rw [List.cons_append]
      simp only [parseValue, hskA, hskB]
      split
      · rename_i rest2 heq
        rw [hz, List.cons_append] at heq
        injection heq with h1 h2
        exact absurd h1 (by decide)
      · rw [hpm, Option.map_some']
    simp only [hv]
    rw [if_pos (show skipWs [] = [] from rfl)]
    rw [foldl_insertPair_eq (p :: tl) [] hnd (by simp)]
    rw [List.nil_append]

/-- Re-extracting the compact rendering of a safe flat object returns the
object: the fence tier finds nothing (no backtick), the brace scan slices the
whole document, the repair pipeline is the identity, and `json.loads`
round-trips. -/
theorem extract_render (prs : List (String × PyVal))
    (hnd : (prs.map Prod.fst).Nodup) (h : safeContent prs) :
    extract_json_from_response (String.mk ('{' :: objBody prs ++ ['}']))
      = .obj prs := by
  have hchars := objBody_chars prs h
  have hnotick : ∀ c ∈ ('{' :: objBody prs ++ ['}']), c ≠ '`' := by
    intro c hc
    rcases List.mem_append.mp hc with hc | hc
    · rcases List.mem_cons.mp hc with rfl | hc
      · decide
      · exact bodyChar_ne_tick c (hchars c hc)
    · simp only [List.mem_singleton] at hc
      subst hc
      decide
  have hfence : fencedMatches ('{' :: objBody prs ++ ['}']) = [] := by
    unfold fencedMatches
    exact fencedFindAux_none _ _ hnotick
  have hscan : braceScanBlocks ('{' :: objBody prs ++ ['}'])
      = ['{' :: objBody prs ++ ['}']] :=
    braceScanBlocks_whole (objBody prs)
      (fun c hc => bodyChar_ne_braces c (hchars c hc))
  have hparse : pyJsonLoads (cleanCandidate false ('{' :: objBody prs ++ ['}']))
      = some (.obj prs) := by
    rw [cleanCandidate_id_safe prs h]
    exact pyJsonLoads_render prs hnd h
  have htier : tier12Blocks ('{' :: objBody prs ++ ['}']) = [.obj prs] := by
    unfold tier12Blocks parsedBlocks
    rw [hfence, if_neg (by simp), hscan]
    simp only [List.filterMap_cons, List.filterMap_nil, hparse]
  unfold extract_json_from_response
  rw [show (String.mk ('{' :: objBody prs ++ ['}'])).data
      = '{' :: objBody prs ++ ['}'] from rfl, htier]

/-- `C9` (amended): idempotence holds on the safe fragment — whenever the
first extraction returns a flat object whose keys and string values are
ASCII letters/digits with no duplicate keys (in particular it is not the
error sentinel, whose message contains spaces), re-serializing with
`json.dumps` and extracting again returns the same object.  The
counterexample `C9_counterexample` shows the unrestricted claim fails when a
string value contains a brace. -/
theorem C9_idempotent_on_flat_safe_objects (raw : String)
    (h : safeFlatObjB (extract_json_from_response raw) = true) :
    extract_json_from_response (pyJsonDumps (extract_json_from_response raw))
      = extract_json_from_response raw := by
  cases hv : extract_json_from_response raw with
  | obj prs =>
    rw [hv] at h
    obtain ⟨hnd, hsafe⟩ := safeFlatObjB_content prs h
    rw [show pyJsonDumps (PyVal.obj prs)
        = String.mk ('{' :: objBody prs ++ ['}']) from by
      unfold pyJsonDumps
      rw [dumpsCompact_obj_eq]]
    exact extract_render prs hnd hsafe
  | null => rw [hv] at h; simp [safeFlatObjB] at h
  | bool b => rw [hv] at h; simp [safeFlatObjB] at h
  | num n => rw [hv] at h; simp [safeFlatObjB] at h
  | str s => rw [hv] at h; simp [safeFlatObjB] at h
  | arr l => rw [hv] at h; simp [safeFlatObjB] at h

/-- Witness for `C9_idempotent_on_flat_safe_objects` at the concrete raw
text `{"classification": "relevant"}`. -/
theorem C9_idempotent_on_flat_safe_objects_witness :
    safeFlatObjB (extract_json_from_response
        "\x7b\"classification\": \"relevant\"\x7d") = true ∧
      extract_json_from_response (pyJsonDumps (extract_json_from_response
          "\x7b\"classification\": \"relevant\"\x7d"))
        = extract_json_from_response
            "\x7b\"classification\": \"relevant\"\x7d" :=
  ⟨by decide, C9_idempotent_on_flat_safe_objects
    "\x7b\"classification\": \"relevant\"\x7d" (by decide)⟩

end Kep
